import Mathlib

/-!
Verification development for the knox secret-management system.

Each definition is a shallow embedding of a function of the Go sources,
translated clause by clause; comments name the source file and lines.
Machine integers are modelled as `Nat`/`Int` with explicit reductions
modulo `2 ^ w` where the Go code can overflow.  Fallible Go functions
return `Except`/`Option`, and code paths that dereference a nil pointer
are modelled by an explicit `crash` outcome.
-/

namespace Knox

/-! ### Basic domain types (knox.go, src/unnamed/part_000) -/

/-- Go: `type VersionStatus int` (part_000 line 45). -/
abbrev VersionStatus := Int

/-- Go: `Primary VersionStatus = iota` (part_000 line 49). -/
def Primary : Int := 0

/-- Go: `Active` (part_000 line 51). -/
def Active : Int := 1

/-- Go: `Inactive` (part_000 line 53). -/
def Inactive : Int := 2

/-- Go: `type PrincipalType int` (part_000 line 87). -/
abbrev PrincipalType := Int

/-- Go: `type AccessType int` (part_000 line 148); `None = iota` = 0,
`Read` = 1, `Write` = 2, `Admin` = 3. -/
abbrev AccessType := Int

/-- Go: `None AccessType = iota` (part_000 line 152). -/
def NoneAccess : Int := 0

/-- Go: `Read` (part_000 line 154). -/
def ReadAccess : Int := 1

/-- Go: `Write` (part_000 line 156). -/
def WriteAccess : Int := 2

/-- Go: `Admin` (part_000 line 158). -/
def AdminAccess : Int := 3

/-- Go struct `Access` (part_000 lines 206-210).  The Go field `Type`
is rendered `ptype` because `Type` is reserved in Lean. -/
structure Access where
  ptype : Int
  ID : String
  access : Int
deriving DecidableEq, Repr

/-- Go: `type ACL []Access` (part_000 line 202). -/
abbrev ACL := List Access

/-- Go struct `KeyVersion` (part_000 lines 250-255).  `ID` is a Go
`uint64`, modelled as a `Nat` (all ids produced by the code are below
`2 ^ 63`); `Data` is a byte slice, modelled as a list of byte values. -/
structure KeyVersion where
  ID : Nat
  Data : List Nat
  Status : Int
  CreationTime : Int
deriving DecidableEq, Repr

/-- Go: `type KeyVersionList []KeyVersion` (part_000 line 259). -/
abbrev KeyVersionList := List KeyVersion

/-- Go struct `Key` (part_000 lines 283-289); the `Path` field is
omitted (`json:"omitempty"`, never touched by the functions modelled
here).  The Go field `ACL` is rendered `acl` to avoid clashing with the
type `ACL`. -/
structure Key where
  ID : String
  acl : ACL
  VersionList : KeyVersionList
  VersionHash : String
deriving DecidableEq, Repr

/-- The closed error taxonomy of the Go sources: the `Err...` package
variables of part_000 lines 14-32, `ErrDBVersion` of keydb.go line 13
and `ErrCryptorVersion` of cryptor.go line 14.  `aesKeySize` stands for
the `aes.KeySizeError` returned by `aes.NewCipher` on a key whose
length is not 16, 24 or 32; `gcmOpen` for the authentication error of
`gcm.Open`; `decryptWrap e` for the `fmt.Errorf("Error decrypting
key: %s", ...)` wrapper of key_manager.go. -/
inductive Err where
  | aclDuplicateEntries
  | aclContainsNone
  | invalidKeyID
  | invalidVersionHash
  | inactiveToPrimary
  | primaryToActive
  | primaryToInactive
  | multiplePrimary
  | sameVersionID
  | invalidStatus
  | keyVersionNotFound
  | keyIDNotFound
  | keyExists
  | dbVersion
  | cryptorVersion
  | aesKeySize
  | gcmOpen
  | decryptWrap (e : Err)
deriving DecidableEq, Repr

/-! ### SHA-256 (Go `crypto/sha256`, used by `KeyVersionList.Hash`)

An executable byte-level SHA-256 over `List Nat`, following FIPS 180-4;
32-bit words are `Nat` reduced modulo `2 ^ 32`. -/

/-- Truncate to a 32-bit word. -/
def w32 (n : Nat) : Nat := n % 4294967296

/-- Rotate a 32-bit word right by `n`. -/
def rotr (n x : Nat) : Nat := w32 ((x >>> n) ||| (x <<< (32 - n)))

def shaCh (x y z : Nat) : Nat := (x &&& y) ^^^ ((x ^^^ 4294967295) &&& z)

def shaMaj (x y z : Nat) : Nat := (x &&& y) ^^^ (x &&& z) ^^^ (y &&& z)

def bigSigma0 (x : Nat) : Nat := rotr 2 x ^^^ rotr 13 x ^^^ rotr 22 x

def bigSigma1 (x : Nat) : Nat := rotr 6 x ^^^ rotr 11 x ^^^ rotr 25 x

def smallSigma0 (x : Nat) : Nat := rotr 7 x ^^^ rotr 18 x ^^^ (x >>> 3)

def smallSigma1 (x : Nat) : Nat := rotr 17 x ^^^ rotr 19 x ^^^ (x >>> 10)

/-- The 64 SHA-256 round constants. -/
def shaK : List Nat :=
  [1116352408, 1899447441, 3049323471, 3921009573,
   961987163, 1508970993, 2453635748, 2870763221,
   3624381080, 310598401, 607225278, 1426881987,
   1925078388, 2162078206, 2614888103, 3248222580,
   3835390401, 4022224774, 264347078, 604807628,
   770255983, 1249150122, 1555081692, 1996064986,
   2554220882, 2821834349, 2952996808, 3210313671,
   3336571891, 3584528711, 113926993, 338241895,
   666307205, 773529912, 1294757372, 1396182291,
   1695183700, 1986661051, 2177026350, 2456956037,
   2730485921, 2820302411, 3259730800, 3345764771,
   3516065817, 3600352804, 4094571909, 275423344,
   430227734, 506948616, 659060556, 883997877,
   958139571, 1322822218, 1537002063, 1747873779,
   1955562222, 2024104815, 2227730452, 2361852424,
   2428436474, 2756734187, 3204031479, 3329325298]

/-- The initial SHA-256 state. -/
def shaH0 : List Nat :=
  [1779033703, 3144134277, 1013904242, 2773480762,
   1359893119, 2600822924, 528734635, 1541459225]

/-- A 64-bit big-endian byte rendering of a length in bits. -/
def be64 (n : Nat) : List Nat :=
  [(n >>> 56) % 256, (n >>> 48) % 256, (n >>> 40) % 256, (n >>> 32) % 256,
   (n >>> 24) % 256, (n >>> 16) % 256, (n >>> 8) % 256, n % 256]

/-- SHA-256 padding: append `0x80`, zeros to 56 mod 64, then the
bit length as 8 big-endian bytes. -/
def shaPad (msg : List Nat) : List Nat :=
  msg ++ [128] ++ List.replicate ((55 + 64 - msg.length % 64) % 64) 0 ++
    be64 (8 * msg.length)

/-- Split a byte list into 64-byte blocks; the fuel argument (at least
the list length, each step consumes at least one element) keeps the
recursion structural so that the definition evaluates by reduction. -/
def blocks64Go : Nat → List Nat → List (List Nat)
  | _, [] => []
  | 0, _ :: _ => []
  | n + 1, b :: rest => (b :: rest).take 64 :: blocks64Go n ((b :: rest).drop 64)

/-- Split a byte list into 64-byte blocks. -/
def blocks64 (l : List Nat) : List (List Nat) :=
  blocks64Go l.length l

/-- Group bytes into big-endian 32-bit words. -/
def beWords : List Nat → List Nat
  | b0 :: b1 :: b2 :: b3 :: rest =>
      (((b0 * 256 + b1) * 256 + b2) * 256 + b3) :: beWords rest
  | _ => []

/-- Extend the 16 block words to the 64-entry message schedule
(`n` words still to append). -/
def extendW : Nat → List Nat → List Nat
  | 0, ws => ws
  | n + 1, ws =>
      extendW n (ws ++ [w32 (smallSigma1 (ws.getD (ws.length - 2) 0) +
        ws.getD (ws.length - 7) 0 + smallSigma0 (ws.getD (ws.length - 15) 0) +
        ws.getD (ws.length - 16) 0)])

/-- One SHA-256 round on the eight-word working state. -/
def shaRound (st : List Nat) (kw : Nat × Nat) : List Nat :=
  match st with
  | [a, b, c, d, e, f, g, h] =>
      let t1 := w32 (h + bigSigma1 e + shaCh e f g + kw.1 + kw.2)
      let t2 := w32 (bigSigma0 a + shaMaj a b c)
      [w32 (t1 + t2), a, b, c, w32 (d + t1), e, f, g]
  | other => other

/-- Compress one 64-byte block into the hash state. -/
def shaCompress (hs : List Nat) (block : List Nat) : List Nat :=
  let ws := extendW 48 (beWords block)
  let st := (List.zip shaK ws).foldl shaRound hs
  List.zipWith (fun x y => w32 (x + y)) hs st

/-- SHA-256 of a byte list, as the 32-byte digest. -/
def sha256 (msg : List Nat) : List Nat :=
  ((blocks64 (shaPad msg)).foldl shaCompress shaH0).flatMap
    (fun w => [(w >>> 24) % 256, (w >>> 16) % 256, (w >>> 8) % 256, w % 256])

/-- One lowercase hex digit, as produced by Go `encoding/hex`. -/
def hexDigit (n : Nat) : Char :=
  if n < 10 then Char.ofNat (48 + n) else Char.ofNat (87 + n)

/-- Go `hex.EncodeToString`: lowercase hex of a byte list. -/
def hexEncode (bs : List Nat) : String :=
  String.mk (bs.flatMap (fun b => [hexDigit (b / 16), hexDigit (b % 16)]))

/-! ### Version-list ordering and hash (part_000 lines 261-372) -/

/-- Go `KeyVersionList.Less` (part_000 lines 275-280) induces this
"less or equal" ordering: `kvlLE a b` iff `¬ Less b a`, i.e. sort by
status first (`Primary < Active < Inactive`), then by id. -/
def kvlLE (a b : KeyVersion) : Prop :=
  a.Status < b.Status ∨ (a.Status = b.Status ∧ a.ID ≤ b.ID)

instance : DecidableRel kvlLE := fun a b => by unfold kvlLE; infer_instance

instance : IsTotal KeyVersion kvlLE :=
  ⟨fun a b => by simp only [kvlLE]; omega⟩

instance : IsTrans KeyVersion kvlLE :=
  ⟨fun a b c hab hbc => by simp only [kvlLE] at hab hbc ⊢; omega⟩

/-- Go `sort.Sort(kvl)` with the `Less` of part_000: any sort for
`kvlLE`; ties carry equal `(Status, ID)` pairs, so every sort yields the
same id sequence, which is all `Hash` reads. -/
def sortKVL (kvl : KeyVersionList) : KeyVersionList :=
  List.insertionSort kvlLE kvl

/-- Go `binary.LittleEndian.PutUint64`: the 8 little-endian bytes of a
`uint64` (ids are below `2 ^ 64`). -/
def le8 (n : Nat) : List Nat :=
  [n % 256, (n >>> 8) % 256, (n >>> 16) % 256, (n >>> 24) % 256,
   (n >>> 32) % 256, (n >>> 40) % 256, (n >>> 48) % 256, (n >>> 56) % 256]

/-- The byte buffer hashed by `KeyVersionList.Hash` (part_000 lines
358-372): `buf` has `8 * len(kvl)` bytes; the ids of the non-Inactive
versions, in sorted order, fill it from the front and the remainder
keeps its zero bytes. -/
def hashBuffer (kvl : KeyVersionList) : List Nat :=
  let ids := ((sortKVL kvl).filter
    (fun kv => decide (kv.Status ≠ Inactive))).map KeyVersion.ID
  ids.flatMap le8 ++ List.replicate (8 * kvl.length - 8 * ids.length) 0

/-- Go `KeyVersionList.Hash` (part_000 lines 358-372): hex-encoded
SHA-256 of `hashBuffer`. -/
def kvlHash (kvl : KeyVersionList) : String :=
  hexEncode (sha256 (hashBuffer kvl))

/-! ### Version-list queries and validation (part_000 lines 313-353) -/

/-- Go `KeyVersionList.GetActive` (part_000 lines 314-322). -/
def getActive (kvl : KeyVersionList) : KeyVersionList :=
  kvl.filter (fun k => decide (k.Status = Active) || decide (k.Status = Primary))

/-- Go `KeyVersionList.GetPrimary` (part_000 lines 325-333); the Go
`nil` result is `none`. -/
def getPrimary (kvl : KeyVersionList) : Option KeyVersion :=
  kvl.find? (fun k => decide (k.Status = Primary))

/-- Loop body of Go `KeyVersionList.Validate` (part_000 lines 337-353)
with its accumulated state: the primary count and the ids seen so far
(the keys of `versionToData`). -/
def kvlValidateGo : KeyVersionList → Nat → List Nat → Option Err
  | [], primaryCount, _ =>
      if primaryCount ≠ 1 then some .multiplePrimary else none
  | kv :: rest, primaryCount, seen =>
      let pc := if kv.Status = Primary then primaryCount + 1 else primaryCount
      if kv.ID ∈ seen then some .sameVersionID
      else kvlValidateGo rest pc (kv.ID :: seen)

/-- Go `KeyVersionList.Validate` (part_000 lines 337-353): first
repeated id gives `ErrSameVersionID`, then a primary count other than
one gives `ErrMulitplePrimary`; `none` means valid. -/
def kvlValidate (kvl : KeyVersionList) : Option Err :=
  kvlValidateGo kvl 0 []

/-- The inner loop of Go `ACL.Validate`: does `a` collide with some
other entry on `(ID, Type)`? -/
def aclHasDup (a : Access) (others : List Access) : Bool :=
  others.any (fun b => decide (a.ID = b.ID) && decide (a.ptype = b.ptype))

/-- Go `ACL.Validate` (part_000 lines 214-226) with the already-checked
prefix as first argument: each entry is first checked for `None`
access, then for a duplicate `(ID, Type)` anywhere else in the list. -/
def aclValidateGo : List Access → List Access → Option Err
  | _, [] => none
  | seen, a :: rest =>
      if a.access = NoneAccess then some .aclContainsNone
      else if aclHasDup a (seen ++ rest) then some .aclDuplicateEntries
      else aclValidateGo (seen ++ [a]) rest

/-- Go `ACL.Validate` (part_000 lines 214-226). -/
def aclValidate (acl : ACL) : Option Err :=
  aclValidateGo [] acl

/-- The character class of the Go key-id regexp `^[a-zA-Z0-9_:]+$`
(part_000 line 294). -/
def isKeyIDChar (c : Char) : Bool :=
  (97 ≤ c.toNat && c.toNat ≤ 122) || (65 ≤ c.toNat && c.toNat ≤ 90) ||
    (48 ≤ c.toNat && c.toNat ≤ 57) || c.toNat == 95 || c.toNat == 58

/-- Go `re.MatchString(k.ID)` for `^[a-zA-Z0-9_:]+$`: a non-empty
string of key-id characters. -/
def validKeyIDString (s : String) : Bool :=
  !s.data.isEmpty && s.data.all isKeyIDChar

/-- Go `Key.Validate` (part_000 lines 292-311): id charset, then ACL
validity, then version-list validity, then hash agreement. -/
def keyValidate (k : Key) : Option Err :=
  if !validKeyIDString k.ID then some .invalidKeyID
  else match aclValidate k.acl with
  | some e => some e
  | none => match kvlValidate k.VersionList with
    | some e => some e
    | none =>
        if k.VersionHash ≠ kvlHash k.VersionList then some .invalidVersionHash
        else none

/-! ### Rotation state machine (part_000 lines 377-407) -/

/-- Go `kvl[i].Status = s` at the first index whose id is `vid`
(the loop of `KeyVersionList.Update` acts on the first match). -/
def updFirst (vid : Nat) (s : Int) : KeyVersionList → KeyVersionList
  | [] => []
  | w :: rest =>
      if w.ID = vid then { w with Status := s } :: rest
      else w :: updFirst vid s rest

/-- The demotion loop of the `Primary` case of `Update` (part_000 lines
385-389): every version whose status is `Primary` becomes `Active`. -/
def demoteOldPrimary (kvl : KeyVersionList) : KeyVersionList :=
  kvl.map (fun w => if w.Status = Primary then { w with Status := Active } else w)

/-- Go `KeyVersionList.Update` (part_000 lines 377-407).  The first
version whose id is `versionID` is acted on; a target status outside
the enum matches no `case` of the Go `switch` and falls through to
`return kvl, nil`. -/
def kvlUpdate (kvl : KeyVersionList) (versionID : Nat) (s : Int) :
    Except Err KeyVersionList :=
  match kvl.find? (fun v => v.ID == versionID) with
  | none => .error .keyVersionNotFound
  | some v =>
      if s = Primary then
        if v.Status ≠ Active then .error .inactiveToPrimary
        else .ok (updFirst versionID Primary (demoteOldPrimary kvl))
      else if s = Active then
        if v.Status ≠ Inactive then .error .primaryToActive
        else .ok (updFirst versionID Active kvl)
      else if s = Inactive then
        if v.Status ≠ Active then .error .primaryToInactive
        else .ok (updFirst versionID Inactive kvl)
      else .ok kvl

/-! ### ACL update (part_000 lines 230-246) -/

/-- Go `ACL.Add` (part_000 lines 230-246): acting on the first entry
matching `a` on `(Type, ID)` — remove it if `a` carries `None` access,
replace it otherwise; with no match, `None` is a no-op and anything
else is appended. -/
def aclAdd : ACL → Access → ACL
  | [], a => if a.access = NoneAccess then [] else [a]
  | b :: rest, a =>
      if b.ptype = a.ptype ∧ a.ID = b.ID then
        if a.access = NoneAccess then rest else a :: rest
      else b :: aclAdd rest a

/-! ### Outcomes

Go functions that return `(value, error)` are modelled with `Res`; a
nil-pointer dereference or out-of-range index (a Go runtime panic) is
the explicit outcome `crash`. -/

inductive Res (α : Type) where
  | ok (a : α)
  | err (e : Err)
  | crash
deriving DecidableEq, Repr

/-- Sequencing of fallible computations (Go `if err != nil return`). -/
def resBind {α β : Type} : Res α → (α → Res β) → Res β
  | .ok a, f => f a
  | .err e, _ => .err e
  | .crash, _ => .crash

/-! ### Encrypted storage form (keydb.go lines 16-47) -/

/-- Go struct `EncKeyVersion` (keydb.go lines 41-47). -/
structure EncKeyVersion where
  ID : Nat
  EncData : List Nat
  Status : Int
  CreationTime : Int
  CryptoMetadata : List Nat
deriving DecidableEq, Repr

/-- Go struct `DBKey` (keydb.go lines 16-23); `DBVersion` is the opaque
optimistic-concurrency token (`int64`). -/
structure DBKey where
  ID : String
  acl : ACL
  VersionList : List EncKeyVersion
  VersionHash : String
  DBVersion : Int
deriving DecidableEq, Repr

/-! ### Cryptor (cryptor.go)

The AES-GCM AEAD itself lives in Go's standard library, outside this
repository; it is modelled as an abstract seal/open pair.  The
round-trip law `opn n (seal n p ad) ad = some p` — the documented
contract of `cipher.AEAD` — is taken as an explicit hypothesis of the
theorems that need it and is discharged on a concrete instance by their
witnesses.  Everything else (key-size check, associated data, metadata
layout, per-version iteration) is translated from cryptor.go. -/

structure AEADModel where
  Seal : List Nat → List Nat → List Nat → List Nat
  Open : List Nat → List Nat → List Nat → Option (List Nat)

/-- The `cipher.AEAD` round-trip contract: opening a sealed message
with the same nonce and associated data returns the plaintext. -/
def aeadRoundtrip (A : AEADModel) : Prop :=
  ∀ nonce pt ad, A.Open nonce (A.Seal nonce pt ad) ad = some pt

/-- Go struct `aesGCMCryptor` (cryptor.go lines 29-32): the symmetric
key bytes and the scheme version byte. -/
structure aesGCMCryptor where
  keyData : List Nat
  version : Nat
deriving DecidableEq, Repr

/-- `aes.NewCipher` succeeds iff the key is 16, 24 or 32 bytes
(`aes.KeySizeError` otherwise). -/
def validAESKeyLen (n : Nat) : Bool :=
  n == 16 || n == 24 || n == 32

/-- Base-128 little-endian varint digits with structural fuel (ten
bytes suffice for any `uint64`). -/
def uvarintGo : Nat → Nat → List Nat
  | 0, n => [n]
  | fuel + 1, n =>
      if n < 128 then [n] else (n % 128 + 128) :: uvarintGo fuel (n / 128)

/-- Go `binary.PutUvarint`: base-128 little-endian varint bytes. -/
def uvarintBytes (n : Nat) : List Nat :=
  uvarintGo 10 n

/-- A `binary.MaxVarintLen64 = 10` byte buffer holding `PutUvarint n`
followed by its untouched zero bytes (cryptor.go lines 61-62). -/
def uvarint10 (n : Nat) : List Nat :=
  uvarintBytes n ++ List.replicate (10 - (uvarintBytes n).length) 0

/-- Reduce an `int64` to its `uint64` bit pattern. -/
def u64 (x : Int) : Nat := (x % (2 ^ 64 : Int)).toNat

/-- The zig-zag transform of `binary.PutVarint`:
`ux := uint64(x) << 1; if x < 0 { ux = ^ux }`. -/
def zigzag (x : Int) : Nat :=
  let ux := (2 * u64 x) % 2 ^ 64
  if x < 0 then 2 ^ 64 - 1 - ux else ux

/-- A 10-byte buffer holding `PutVarint x` (cryptor.go lines 63-64). -/
def varint10 (x : Int) : List Nat :=
  uvarint10 (zigzag x)

/-- Go `aesGCMCryptor.generateAD` (cryptor.go lines 60-70): varuint
version id, varint creation time, then the key id bytes (knox key ids
are ASCII, so codepoints coincide with UTF-8 bytes). -/
def generateAD (kid : String) (vid : Nat) (creation : Int) : List Nat :=
  uvarint10 vid ++ varint10 creation ++ kid.data.map Char.toNat

/-- Go `buildMetadata` (cryptor.go lines 147-152): scheme version byte
followed by the nonce. -/
def buildMetadata (version : Nat) (nonce : List Nat) : List Nat :=
  version :: nonce

/-- Go `aesGCMCryptor.EncryptVersion` (cryptor.go lines 34-57); the
fresh random nonce drawn from `rand.Read` is passed explicitly. -/
def encryptVersion (A : AEADModel) (c : aesGCMCryptor) (k : Key)
    (v : KeyVersion) (nonce : List Nat) : Res EncKeyVersion :=
  if validAESKeyLen c.keyData.length then
    .ok { ID := v.ID
          EncData := A.Seal nonce v.Data (generateAD k.ID v.ID v.CreationTime)
          Status := v.Status
          CreationTime := v.CreationTime
          CryptoMetadata := buildMetadata c.version nonce }
  else .err .aesKeySize

/-- Go `aesGCMCryptor.decryptVersion` (cryptor.go lines 72-97):
`md.Version()` reads byte 0 of the metadata (a panic on an empty
slice), the scheme byte must match, and `gcm.Open` authenticates with
the same associated data. -/
def decryptVersion (A : AEADModel) (c : aesGCMCryptor) (k : DBKey)
    (v : EncKeyVersion) : Res KeyVersion :=
  match v.CryptoMetadata with
  | [] => .crash
  | ver :: nonce =>
      if ver ≠ c.version then .err .cryptorVersion
      else if validAESKeyLen c.keyData.length then
        match A.Open nonce v.EncData (generateAD k.ID v.ID v.CreationTime) with
        | some pt =>
            .ok { ID := v.ID, Data := pt, Status := v.Status,
                  CreationTime := v.CreationTime }
        | none => .err .gcmOpen
      else .err .aesKeySize

/-- The version loop of Go `aesGCMCryptor.Encrypt` (cryptor.go lines
100-107); `i` indexes the nonce stream. -/
def encVersions (A : AEADModel) (c : aesGCMCryptor) (k : Key)
    (nonces : Nat → List Nat) : Nat → List KeyVersion → Res (List EncKeyVersion)
  | _, [] => .ok []
  | i, v :: rest =>
      match encryptVersion A c k v (nonces i) with
      | .ok ev =>
          match encVersions A c k nonces (i + 1) rest with
          | .ok evs => .ok (ev :: evs)
          | .err e => .err e
          | .crash => .crash
      | .err e => .err e
      | .crash => .crash

/-- Go `aesGCMCryptor.Encrypt` (cryptor.go lines 99-116): encrypt every
version, preserving id, ACL, order and hash (`DBVersion` keeps its Go
zero value). -/
def encryptKey (A : AEADModel) (c : aesGCMCryptor) (k : Key)
    (nonces : Nat → List Nat) : Res DBKey :=
  match encVersions A c k nonces 0 k.VersionList with
  | .ok evs =>
      .ok { ID := k.ID, acl := k.acl, VersionList := evs,
            VersionHash := k.VersionHash, DBVersion := 0 }
  | .err e => .err e
  | .crash => .crash

/-- The version loop of Go `aesGCMCryptor.Decrypt` (cryptor.go lines
119-126). -/
def decVersions (A : AEADModel) (c : aesGCMCryptor) (k : DBKey) :
    List EncKeyVersion → Res (List KeyVersion)
  | [] => .ok []
  | v :: rest =>
      match decryptVersion A c k v with
      | .ok dv =>
          match decVersions A c k rest with
          | .ok dvs => .ok (dv :: dvs)
          | .err e => .err e
          | .crash => .crash
      | .err e => .err e
      | .crash => .crash

/-- Go `aesGCMCryptor.Decrypt` (cryptor.go lines 118-135). -/
def decryptKey (A : AEADModel) (c : aesGCMCryptor) (k : DBKey) : Res Key :=
  match decVersions A c k k.VersionList with
  | .ok vs =>
      .ok { ID := k.ID, acl := k.acl, VersionList := vs,
            VersionHash := k.VersionHash }
  | .err e => .err e
  | .crash => .crash

/-! ### In-memory DB (keydb.go lines 69-172)

`TempDB` state is its `keys` slice; the nanosecond timestamp
`time.Now().UnixNano()` taken on a successful write is passed in as
`now`. -/

/-- Go `TempDB.Get` (keydb.go lines 89-101): first record with the id,
else `ErrKeyIDNotFound` (the test-only `db.err` injection is not
modelled). -/
def tempDBGet (keys : List DBKey) (id : String) : Except Err DBKey :=
  match keys.find? (fun k => k.ID == id) with
  | some k => .ok k
  | none => .error .keyIDNotFound

/-- Go `TempDB.Update` (keydb.go lines 114-132): at the first record
with the key's id, fail with `ErrDBVersion` unless the stored token
matches, otherwise replace the record with a copy stamped `now`; with
no matching record fail with `ErrKeyIDNotFound`.  Returns the state of
the `keys` slice after the call together with the error. -/
def tempDBUpdate : List DBKey → DBKey → Int → List DBKey × Option Err
  | [], _, _ => ([], some .keyIDNotFound)
  | dbk :: rest, key, now =>
      if dbk.ID = key.ID then
        if dbk.DBVersion ≠ key.DBVersion then (dbk :: rest, some .dbVersion)
        else ({ key with DBVersion := now } :: rest, none)
      else
        let r := tempDBUpdate rest key now
        (dbk :: r.1, r.2)

/-! ### Key manager (key_manager.go) -/

/-- Go `keyManager.GetKey` (key_manager.go lines 58-79): load, decrypt
(wrapping a decryption failure), then filter by the requested status;
the `Primary` filter dereferences `GetPrimary`'s result, a nil pointer
when the list holds no primary version. -/
def managerGetKey (A : AEADModel) (c : aesGCMCryptor) (keys : List DBKey)
    (id : String) (status : Int) : Res Key :=
  match tempDBGet keys id with
  | .error e => .err e
  | .ok encK =>
      match decryptKey A c encK with
      | .err e => .err (.decryptWrap e)
      | .crash => .crash
      | .ok k =>
          if status = Inactive then .ok k
          else if status = Active then
            .ok { k with VersionList := getActive k.VersionList }
          else if status = Primary then
            match getPrimary k.VersionList with
            | some p => .ok { k with VersionList := [p] }
            | none => .crash
          else .err .invalidStatus

/-- Go `keyManager.AddVersion` (key_manager.go lines 111-135): load,
decrypt, append the version, recompute the hash, validate — and then
call `EncryptVersion` *discarding its error*: on encryption failure the
nil `encV` pointer is dereferenced (`*encV`), so that path crashes
instead of returning the error.  On success the encrypted version is
appended and the record stored through `TempDB.Update`. -/
def managerAddVersion (A : AEADModel) (c : aesGCMCryptor) (keys : List DBKey)
    (id : String) (v : KeyVersion) (nonce : List Nat) (now : Int) :
    Res (List DBKey) :=
  match tempDBGet keys id with
  | .error e => .err e
  | .ok encK =>
      match decryptKey A c encK with
      | .err e => .err (.decryptWrap e)
      | .crash => .crash
      | .ok k =>
          let kvl2 := k.VersionList ++ [v]
          let k2 : Key := { k with VersionList := kvl2, VersionHash := kvlHash kvl2 }
          match keyValidate k2 with
          | some e => .err e
          | none =>
              match encryptVersion A c k2 v nonce with
              | .err _ => .crash
              | .crash => .crash
              | .ok encV =>
                  let newEncK : DBKey :=
                    { encK with VersionList := encK.VersionList ++ [encV],
                                VersionHash := kvlHash kvl2 }
                  match tempDBUpdate keys newEncK now with
                  | (st, none) => .ok st
                  | (_, some e) => .err e

/-! ### Server error envelope (part_009, decorators.go) -/

/-- Error subcodes (part_000 lines 417-431). -/
def OKCode : Int := 0

def InternalServerErrorCode : Int := 1

def KeyIdentifierExistsCode : Int := 2

def KeyVersionDoesNotExistCode : Int := 3

def KeyIdentifierDoesNotExistCode : Int := 4

def UnauthenticatedCode : Int := 5

def UnauthorizedCode : Int := 6

def NotYetImplementedCode : Int := 7

def NotFoundCode : Int := 8

def NoKeyIDCode : Int := 9

def NoKeyDataCode : Int := 10

def BadRequestDataCode : Int := 11

def BadKeyFormatCode : Int := 12

/-- Modelled from the spec: the constant `knox.BadPrincipalIdentifier`
is referenced by part_009 line 48 but declared in a knox.go portion not
under src/; the spec's subcode table (§6) gives it the value 13. -/
def BadPrincipalIdentifier : Int := 13

/-- Go struct `httpError` (part_009 lines 18-21): subcode plus the
server-side message kept for logging. -/
structure httpError where
  Subcode : Int
  Message : String
deriving DecidableEq, Repr

/-- Go struct `httpErrResp` (part_009 lines 29-32): the HTTP status
code and the fixed client-facing message for one subcode. -/
structure httpErrResp where
  Code : Nat
  Message : String
deriving DecidableEq, Repr

/-- Go `HTTPErrMap` (part_009 lines 35-49), entry for entry. -/
def HTTPErrMap (c : Int) : Option httpErrResp :=
  if c = NoKeyIDCode then some ⟨400, "Missing Key ID"⟩
  else if c = InternalServerErrorCode then some ⟨500, "Internal Server Error"⟩
  else if c = KeyIdentifierExistsCode then some ⟨400, "Key identifer exists"⟩
  else if c = KeyVersionDoesNotExistCode then some ⟨404, "Key version does not exist"⟩
  else if c = KeyIdentifierDoesNotExistCode then some ⟨404, "Key identifer does not exist"⟩
  else if c = UnauthenticatedCode then some ⟨401, "User or machine is not authenticated"⟩
  else if c = UnauthorizedCode then some ⟨403, "User or machine not authorized"⟩
  else if c = NotYetImplementedCode then some ⟨501, "Not yet implemented"⟩
  else if c = NotFoundCode then some ⟨404, "Route not found"⟩
  else if c = NoKeyDataCode then some ⟨400, "Missing Key Data"⟩
  else if c = BadRequestDataCode then some ⟨400, "Bad request format"⟩
  else if c = BadKeyFormatCode then some ⟨400, "Key ID contains unsupported characters"⟩
  else if c = BadPrincipalIdentifier then some ⟨400, "Invalid principal identifier"⟩
  else none

/-- A subcode whose `HTTPErrMap` status is 400 Bad Request. -/
def isBadRequestSubcode (c : Int) : Bool :=
  match HTTPErrMap c with
  | some r => r.Code == 400
  | none => false

/-- The parts of the response envelope written by `writeErr` that
depend on the error, plus the `httpError` recorded via `setAPIError`
for the access logger. -/
structure ErrEnvelope where
  status : String
  code : Int
  message : String
  httpStatus : Nat
  logged : httpError
deriving DecidableEq, Repr

/-- Go `writeErr` (part_009 lines 148-169): `resp.Message` is always
`HTTPErrMap[apiErr.Subcode].Message`; the error's own message is only
stored in the request context (`setAPIError`, line 162).  Indexing
`HTTPErrMap` with an unmapped subcode yields a nil pointer in Go, hence
`crash`. -/
def writeErr (apiErr : httpError) : Res ErrEnvelope :=
  match HTTPErrMap apiErr.Subcode with
  | none => .crash
  | some r =>
      .ok { status := "error", code := apiErr.Subcode, message := r.Message,
            httpStatus := r.Code, logged := apiErr }

/-- Go `Logger` (decorators.go lines 111-115): the access-log entry's
`Msg` field is the recorded error's own message. -/
def loggerMsg (apiError : httpError) : String :=
  apiError.Message

/-! ### Client retry loop (part_016 lines 19-24, 116-125, 283-330) -/

/-- Go constants (part_016 lines 22-24), in nanoseconds. -/
def baseBackoff : Int := 50000000

def maxBackoff : Int := 3000000000

def maxRetryAttempts : Nat := 3

/-- Go `GetBackoffDuration` (part_016 lines 116-125).  `float64`
arithmetic is modelled exactly over `ℚ`; `r` stands for the
`rand.Float64()` draw (a value in `[0, 1)`), and the final
`time.Duration(duration)` conversion truncates toward zero (a floor,
as `duration` is nonnegative here). -/
def getBackoffDuration (r : ℚ) (attempt : Int) : Int :=
  let basef : ℚ := (baseBackoff : ℚ)
  let duration : ℚ := r * (attempt : ℚ) + basef
  if duration > (maxBackoff : ℚ) then maxBackoff
  else ⌊duration⌋

/-- What one loop iteration of `getHTTPData` observes: a transport
error from `cli.Do`, a JSON decode error, or a decoded `Response`
envelope with its status, code and message. -/
inductive HRes where
  | transportErr
  | decodeErr
  | body (status : String) (code : Int) (msg : String)
deriving DecidableEq

/-- The result of `getHTTPData`: nil, the transport error, the decode
error, or `fmt.Errorf(resp.Message)`. -/
inductive GhdOut where
  | ok
  | errTransport
  | errDecode
  | errMsg (msg : String)
deriving DecidableEq, Repr

/-- One run of the retry loop: its outcome, the attempt numbers
consumed (in order), and the attempt numbers after which
`time.Sleep(GetBackoffDuration(i))` ran. -/
structure GhdRun where
  out : GhdOut
  attempts : List Nat
  sleeps : List Nat
deriving DecidableEq, Repr

/-- The retry loop of Go `HTTPClient.getHTTPData` (part_016 lines
307-327): `for i := 1; i <= maxRetryAttempts; i++`, modelled with the
remaining iteration count as fuel (`fuel = maxRetryAttempts + 1 - i`);
exhausted fuel is the loop's fall-through `return nil`.  A non-ok
envelope returns its message unless the code is
`InternalServerErrorCode` and attempts remain, in which case the client
sleeps and retries. -/
def ghdLoop (resps : Nat → HRes) : Nat → Nat → GhdRun
  | _, 0 => ⟨.ok, [], []⟩
  | i, fuel + 1 =>
      match resps i with
      | .transportErr => ⟨.errTransport, [i], []⟩
      | .decodeErr => ⟨.errDecode, [i], []⟩
      | .body st code msg =>
          if st ≠ "ok" then
            if code ≠ InternalServerErrorCode ∨ i = maxRetryAttempts then
              ⟨.errMsg msg, [i], []⟩
            else
              let r := ghdLoop resps (i + 1) fuel
              ⟨r.out, i :: r.attempts, i :: r.sleeps⟩
          else ⟨.ok, [i], []⟩

/-- Go `HTTPClient.getHTTPData` from the first attempt. -/
def getHTTPData (resps : Nat → HRes) : GhdRun :=
  ghdLoop resps 1 maxRetryAttempts

/-! ### Refresh-daemon update cycle (daemon.go lines 156-202)

`daemon.update` is modelled by the ordered trace of its lock, file and
network operations; file writes inside `processKey` (temp file, rename)
involve neither the lock nor the network and are omitted.  `lock` is
recorded only for a successful acquisition.  The crucial control-flow
fact is the Go `defer d.registerKeyFile.Unlock()` at line 162: the lock
is released only when `update` returns. -/

inductive DEv where
  | lock
  | unlock
  | readReg
  | cacheGet (id : String)
  | deleteKey (id : String)
  | netGetKeys
  | netGetKey (id : String)
  | writeReg
deriving DecidableEq, Repr

/-- Network calls made during an update cycle: the list-changed request
`cli.GetKeys` and the per-key fetch `cli.NetworkGetKey`. -/
def isNetworkEv : DEv → Bool
  | .netGetKeys => true
  | .netGetKey _ => true
  | _ => false

/-- The outcome of `cli.NetworkGetKey` as `processKey` distinguishes
them (daemon.go lines 233-239): success, the two self-healing error
messages, or any other error. -/
inductive NetKeyOutcome where
  | okKey
  | errUnauthorized
  | errKeyNotExist
  | errOther
deriving DecidableEq, Repr

/-- The observable inputs of one `daemon.update` run. -/
structure DaemonWorld where
  lockOK : Bool
  readOK : Bool
  regIDs : List String
  cachedIDs : List String
  getKeysRes : Option (List String)
  netKeyRes : String → NetKeyOutcome

/-- Go `daemon.processKey` (daemon.go lines 232-270): one network fetch
per key; on the unauthorized / does-not-exist errors the registration
file is rewritten (`registerKeyFile.Remove`). -/
def processKeyEvents (outcome : NetKeyOutcome) (id : String) : List DEv :=
  DEv.netGetKey id ::
    (match outcome with
     | .errUnauthorized => [DEv.writeReg]
     | .errKeyNotExist => [DEv.writeReg]
     | _ => [])

/-- The loop over `currentKeyIDs` (daemon.go lines 174-186): a cache
read for each still-registered cached id, a cache-file delete for each
no-longer-registered one. -/
def perCachedEvents (cachedIDs regIDs : List String) : List DEv :=
  cachedIDs.map (fun id =>
    if id ∈ regIDs then DEv.cacheGet id else DEv.deleteKey id)

/-- The network phase of `daemon.update` (daemon.go lines 187-200):
skipped when `keyMap` is empty, otherwise the list-changed request
followed (on success) by one `processKey` per updated id. -/
def updateNetPhase (w : DaemonWorld) : List DEv :=
  if w.regIDs = [] then []
  else
    DEv.netGetKeys ::
      (match w.getKeysRes with
       | none => []
       | some updated =>
           updated.flatMap (fun id => processKeyEvents (w.netKeyRes id) id))

/-- The event trace of Go `daemon.update` (daemon.go lines 156-202).
After a failed `Lock` the function returns at once; after a successful
one, the deferred `Unlock` is the final event of every return path. -/
def updateEvents (w : DaemonWorld) : List DEv :=
  if !w.lockOK then []
  else if !w.readOK then [DEv.lock, DEv.readReg, DEv.unlock]
  else
    DEv.lock :: DEv.readReg ::
      (perCachedEvents w.cachedIDs w.regIDs ++ updateNetPhase w ++ [DEv.unlock])

/-! ### Derived predicates on ACLs and version lists, used by the
statements below -/

/-- The match condition of the `ACL.Add` loop (part_000 line 232). -/
def addMatch (b a : Access) : Prop :=
  b.ptype = a.ptype ∧ a.ID = b.ID

instance : ∀ b a, Decidable (addMatch b a) := fun b a => by
  unfold addMatch; infer_instance

/-- Uniqueness of `(type, id)` pairs, the ACL data-model invariant. -/
def aclUnique (acl : ACL) : Prop :=
  acl.Pairwise (fun x y => ¬(x.ptype = y.ptype ∧ x.ID = y.ID))

instance (acl : ACL) : Decidable (aclUnique acl) := by
  unfold aclUnique; infer_instance

/-- The ids of a list's Primary versions (a singleton on valid lists). -/
def primaryIDs (kvl : KeyVersionList) : List Nat :=
  (kvl.filter (fun v => decide (v.Status = Primary))).map KeyVersion.ID

/-- The ids of a list's Active versions. -/
def activeIDs (kvl : KeyVersionList) : List Nat :=
  (kvl.filter (fun v => decide (v.Status = Active))).map KeyVersion.ID

/-- The `(status, id)` pair of a version — all that the sort order and
the hash buffer read. -/
def statusId (v : KeyVersion) : Int × Nat :=
  (v.Status, v.ID)

/-- The sort order on `(status, id)` pairs. -/
def pairLE (a b : Int × Nat) : Prop :=
  a.1 < b.1 ∨ (a.1 = b.1 ∧ a.2 ≤ b.2)

instance : IsAntisymm (Int × Nat) pairLE :=
  ⟨fun a b hab hba => by
    simp only [pairLE] at hab hba
    have h1 : a.1 = b.1 := by omega
    have h2 : a.2 = b.2 := by omega
    exact Prod.ext h1 h2⟩

/-! ## Shared list lemmas -/

lemma listMapIdOn {α : Type} {l : List α} {f : α → α} (h : ∀ x ∈ l, f x = x) :
    l.map f = l := by
  induction l with
  | nil => rfl
  | cons x xs ih =>
      simp only [List.map_cons, h x (List.mem_cons_self x xs)]
      rw [ih (fun y hy => h y (List.mem_cons_of_mem x hy))]

lemma listFilterAllTrue {α : Type} {l : List α} {p : α → Bool}
    (h : ∀ x ∈ l, p x = true) : l.filter p = l := by
  induction l with
  | nil => rfl
  | cons x xs ih =>
      simp only [List.filter_cons, h x (List.mem_cons_self x xs), if_true]
      rw [ih (fun y hy => h y (List.mem_cons_of_mem x hy))]

/-! ## C6 — ACL Add -/

lemma aclAdd_absent (acl : ACL) (a : Access)
    (h : ∀ b ∈ acl, ¬ addMatch b a) :
    aclAdd acl a = if a.access = NoneAccess then acl else acl ++ [a] := by
  induction acl with
  | nil => simp [aclAdd]
  | cons b rest ih =>
      have hb : ¬(b.ptype = a.ptype ∧ a.ID = b.ID) :=
        h b (List.mem_cons_self b rest)
      have hrest := ih (fun c hc => h c (List.mem_cons_of_mem b hc))
      simp only [aclAdd, if_neg hb, hrest]
      by_cases hn : a.access = NoneAccess <;> simp [hn]

lemma addMatch_trans_unique {x y a : Access} (hx : addMatch x a)
    (hy : addMatch y a) : x.ptype = y.ptype ∧ x.ID = y.ID := by
  obtain ⟨hx1, hx2⟩ := hx
  obtain ⟨hy1, hy2⟩ := hy
  constructor
  · rw [hx1, hy1]
  · rw [← hx2, ← hy2]

lemma aclAdd_present_none (acl : ACL) (a : Access) (hu : aclUnique acl)
    (hp : ∃ b ∈ acl, addMatch b a) (hn : a.access = NoneAccess) :
    aclAdd acl a = acl.filter (fun b => !(decide (addMatch b a))) := by
  induction acl with
  | nil => obtain ⟨b, hb, _⟩ := hp; exact absurd hb (List.not_mem_nil b)
  | cons b rest ih =>
      by_cases hb : addMatch b a
      · have hrest : ∀ c ∈ rest, ¬ addMatch c a := by
          intro c hc hca
          exact (List.pairwise_cons.mp hu).1 c hc (addMatch_trans_unique hb hca)
        have hcond : b.ptype = a.ptype ∧ a.ID = b.ID := hb
        have hL : aclAdd (b :: rest) a = rest := by
          simp only [aclAdd]
          rw [if_pos hcond, if_pos hn]
        have hR : List.filter (fun c => !(decide (addMatch c a))) (b :: rest)
            = rest := by
          rw [List.filter_cons]
          have hbf : (!(decide (addMatch b a))) = false := by simp [hb]
          rw [hbf]
          simp only [Bool.false_eq_true, if_false]
          exact listFilterAllTrue (fun c hc => by simp [hrest c hc])
        rw [hL, hR]
      · have hp' : ∃ c ∈ rest, addMatch c a := by
          obtain ⟨c, hc, hca⟩ := hp
          rcases List.mem_cons.mp hc with h1 | h1
          · exact absurd (h1 ▸ hca) hb
          · exact ⟨c, h1, hca⟩
        have hnotpair : ¬(b.ptype = a.ptype ∧ a.ID = b.ID) := hb
        have hL : aclAdd (b :: rest) a = b :: aclAdd rest a := by
          simp only [aclAdd]
          rw [if_neg hnotpair]
        have hbt : (!(decide (addMatch b a))) = true := by simp [hb]
        rw [hL, ih (List.pairwise_cons.mp hu).2 hp', List.filter_cons, hbt,
          if_pos rfl]

lemma aclAdd_present_repl (acl : ACL) (a : Access) (hu : aclUnique acl)
    (hp : ∃ b ∈ acl, addMatch b a) (hn : a.access ≠ NoneAccess) :
    aclAdd acl a = acl.map (fun b => if addMatch b a then a else b) := by
  induction acl with
  | nil => obtain ⟨b, hb, _⟩ := hp; exact absurd hb (List.not_mem_nil b)
  | cons b rest ih =>
      by_cases hb : addMatch b a
      · have hrest : ∀ c ∈ rest, ¬ addMatch c a := by
          intro c hc hca
          exact (List.pairwise_cons.mp hu).1 c hc (addMatch_trans_unique hb hca)
        have hmapid : rest.map (fun c => if addMatch c a then a else c) = rest :=
          listMapIdOn (fun c hc => by simp [hrest c hc])
        have hcond : b.ptype = a.ptype ∧ a.ID = b.ID := hb
        have hL : aclAdd (b :: rest) a = a :: rest := by
          simp only [aclAdd]
          rw [if_pos hcond, if_neg hn]
        rw [hL, List.map_cons, if_pos hb, hmapid]
      · have hp' : ∃ c ∈ rest, addMatch c a := by
          obtain ⟨c, hc, hca⟩ := hp
          rcases List.mem_cons.mp hc with h1 | h1
          · exact absurd (h1 ▸ hca) hb
          · exact ⟨c, h1, hca⟩
        have hnotpair : ¬(b.ptype = a.ptype ∧ a.ID = b.ID) := hb
        have hL : aclAdd (b :: rest) a = b :: aclAdd rest a := by
          simp only [aclAdd]
          rw [if_neg hnotpair]
        rw [hL, ih (List.pairwise_cons.mp hu).2 hp', List.map_cons, if_neg hb]

lemma aclAdd_cons_match {b : Access} (rest : List Access) (a : Access)
    (hb : addMatch b a) :
    aclAdd (b :: rest) a = if a.access = NoneAccess then rest else a :: rest := by
  have hcond : b.ptype = a.ptype ∧ a.ID = b.ID := hb
  simp only [aclAdd]
  rw [if_pos hcond]

lemma aclAdd_cons_nomatch {b : Access} (rest : List Access) (a : Access)
    (hb : ¬ addMatch b a) :
    aclAdd (b :: rest) a = b :: aclAdd rest a := by
  have hcond : ¬(b.ptype = a.ptype ∧ a.ID = b.ID) := hb
  simp only [aclAdd]
  rw [if_neg hcond]

lemma aclAdd_idem (acl : ACL) (a : Access) (hu : aclUnique acl) :
    aclAdd (aclAdd acl a) a = aclAdd acl a := by
  induction acl with
  | nil =>
      by_cases hn : a.access = NoneAccess
      · simp [aclAdd, hn]
      · simp [aclAdd, hn]
  | cons b rest ih =>
      by_cases hb : addMatch b a
      · rw [aclAdd_cons_match rest a hb]
        by_cases hn : a.access = NoneAccess
        · rw [if_pos hn]
          have hrest : ∀ c ∈ rest, ¬ addMatch c a := by
            intro c hc hca
            exact (List.pairwise_cons.mp hu).1 c hc (addMatch_trans_unique hb hca)
          rw [aclAdd_absent rest a hrest, if_pos hn]
        · rw [if_neg hn]
          rw [aclAdd_cons_match rest a ⟨rfl, rfl⟩, if_neg hn]
      · rw [aclAdd_cons_nomatch rest a hb, aclAdd_cons_nomatch (aclAdd rest a) a hb,
          ih (List.pairwise_cons.mp hu).2]

lemma aclAdd_none_clears (acl : ACL) (a : Access) (hu : aclUnique acl)
    (hn : a.access = NoneAccess) :
    ∀ b ∈ aclAdd acl a, ¬ addMatch b a := by
  by_cases hp : ∃ b ∈ acl, addMatch b a
  · rw [aclAdd_present_none acl a hu hp hn]
    intro b hb
    have := List.mem_filter.mp hb
    simpa using this.2
  · push_neg at hp
    rw [aclAdd_absent acl a (fun b hb hm => hp b hb hm), if_pos hn]
    exact fun b hb hm => hp b hb hm

lemma filter_key_append (l1 l2 : List Access) (p : Access → Bool) :
    (l1 ++ l2).filter p = l1.filter p ++ l2.filter p := List.filter_append l1 l2

/-- Claim C6: `ACL.Add` removes the matching entry on `None`, replaces
it otherwise, appends when absent and non-`None`, is a no-op when
absent and `None`; it is idempotent on identical entries, and
`Add(x with None)` then `Add(x with R)` leaves `x : R` as the only
entry for that `(type, id)`. -/
theorem C6_acl_add (acl : ACL) (a : Access) (hu : aclUnique acl) :
    ((∃ b ∈ acl, addMatch b a) → a.access = NoneAccess →
        aclAdd acl a = acl.filter (fun b => !(decide (addMatch b a)))) ∧
    ((∃ b ∈ acl, addMatch b a) → a.access ≠ NoneAccess →
        aclAdd acl a = acl.map (fun b => if addMatch b a then a else b)) ∧
    ((∀ b ∈ acl, ¬ addMatch b a) → a.access ≠ NoneAccess →
        aclAdd acl a = acl ++ [a]) ∧
    ((∀ b ∈ acl, ¬ addMatch b a) → a.access = NoneAccess →
        aclAdd acl a = acl) ∧
    (aclAdd (aclAdd acl a) a = aclAdd acl a) ∧
    (∀ t i r, r ≠ NoneAccess →
        (aclAdd (aclAdd acl ⟨t, i, NoneAccess⟩) ⟨t, i, r⟩).filter
            (fun b => decide (b.ptype = t ∧ b.ID = i)) = [⟨t, i, r⟩]) := by
  refine ⟨fun hp hn => aclAdd_present_none acl a hu hp hn,
         fun hp hn => aclAdd_present_repl acl a hu hp hn,
         fun ha hn => by rw [aclAdd_absent acl a ha, if_neg hn],
         fun ha hn => by rw [aclAdd_absent acl a ha, if_pos hn],
         aclAdd_idem acl a hu, ?_⟩
  intro t i r hr
  have hclear : ∀ b ∈ aclAdd acl ⟨t, i, NoneAccess⟩, ¬ addMatch b ⟨t, i, r⟩ := by
    intro b hb hm
    exact aclAdd_none_clears acl ⟨t, i, NoneAccess⟩ hu rfl b hb ⟨hm.1, hm.2⟩
  rw [aclAdd_absent _ ⟨t, i, r⟩ hclear, if_neg hr, filter_key_append]
  have h1 : (aclAdd acl ⟨t, i, NoneAccess⟩).filter
      (fun b => decide (b.ptype = t ∧ b.ID = i)) = [] := by
    rw [List.filter_eq_nil_iff]
    intro b hb
    intro hdec
    have hkey := of_decide_eq_true hdec
    exact hclear b hb ⟨hkey.1, hkey.2.symm⟩
  rw [h1]
  simp

/-- Witness for C6 at a concrete ACL. -/
theorem C6_acl_add_witness :
    aclUnique [⟨1, "alice", 3⟩] ∧
      aclAdd (aclAdd [⟨1, "alice", 3⟩] ⟨1, "alice", 2⟩) ⟨1, "alice", 2⟩ =
        aclAdd [⟨1, "alice", 3⟩] ⟨1, "alice", 2⟩ :=
  ⟨by decide, (C6_acl_add [⟨1, "alice", 3⟩] ⟨1, "alice", 2⟩ (by decide)).2.2.2.2.1⟩

/-! ## C2 — rotation state machine -/

lemma kvl_id_inj {kvl : KeyVersionList} (hnd : (kvl.map KeyVersion.ID).Nodup)
    {v w : KeyVersion} (hv : v ∈ kvl) (hw : w ∈ kvl) (h : v.ID = w.ID) :
    v = w :=
  List.inj_on_of_nodup_map hnd hv hw h

lemma find_first_of_nodup {kvl : KeyVersionList} {v : KeyVersion} {vid : Nat}
    (hnd : (kvl.map KeyVersion.ID).Nodup) (hv : v ∈ kvl) (hid : v.ID = vid) :
    kvl.find? (fun w => w.ID == vid) = some v := by
  induction kvl with
  | nil => exact absurd hv (List.not_mem_nil v)
  | cons w rest ih =>
      by_cases hw : w.ID = vid
      · have hveq : v = w := by
          rcases List.mem_cons.mp hv with h1 | h1
          · exact h1
          · exfalso
            have hnot : w.ID ∉ rest.map KeyVersion.ID :=
              (List.nodup_cons.mp (by simpa using hnd)).1
            exact hnot (List.mem_map.mpr ⟨v, h1, by rw [hid, hw]⟩)
        rw [List.find?_cons_of_pos _ (by simp [hw]), hveq]
      · have hvrest : v ∈ rest := by
          rcases List.mem_cons.mp hv with h1 | h1
          · exact absurd (h1 ▸ hid) hw
          · exact h1
        rw [List.find?_cons_of_neg _ (by simp [hw])]
        exact ih (List.nodup_cons.mp (by simpa using hnd)).2 hvrest

lemma updFirst_eq_map {kvl : KeyVersionList} {vid : Nat} (s : Int)
    (hnd : (kvl.map KeyVersion.ID).Nodup)
    (hex : vid ∈ kvl.map KeyVersion.ID) :
    updFirst vid s kvl =
      kvl.map (fun w => if w.ID = vid then { w with Status := s } else w) := by
  induction kvl with
  | nil => rfl
  | cons w rest ih =>
      by_cases hw : w.ID = vid
      · have hrest : ∀ x ∈ rest, x.ID ≠ vid := by
          intro x hx hxid
          have hnot : w.ID ∉ rest.map KeyVersion.ID :=
            (List.nodup_cons.mp (by simpa using hnd)).1
          exact hnot (List.mem_map.mpr ⟨x, hx, by rw [hxid, hw]⟩)
        have hmap : rest.map
            (fun x => if x.ID = vid then { x with Status := s } else x) = rest :=
          listMapIdOn (fun x hx => by rw [if_neg (hrest x hx)])
        simp only [updFirst, if_pos hw, List.map_cons, hmap]
      · have hvrest : vid ∈ rest.map KeyVersion.ID := by
          have hsplit : vid = w.ID ∨ vid ∈ rest.map KeyVersion.ID := by
            simpa using hex
          rcases hsplit with h1 | h1
          · exact absurd h1.symm hw
          · exact h1
        simp only [updFirst, if_neg hw, List.map_cons]
        rw [ih (List.nodup_cons.mp (by simpa using hnd)).2 hvrest]

lemma demote_preserves_id (kvl : KeyVersionList) :
    (demoteOldPrimary kvl).map KeyVersion.ID = kvl.map KeyVersion.ID := by
  simp only [demoteOldPrimary, List.map_map]
  exact List.map_congr_left (fun w _ => by by_cases h : w.Status = Primary <;>
    simp [h])

lemma update_promote_form {kvl : KeyVersionList} {vid : Nat} {v : KeyVersion}
    (hnd : (kvl.map KeyVersion.ID).Nodup) (hv : v ∈ kvl) (hid : v.ID = vid)
    (hact : v.Status = Active) :
    updFirst vid Primary (demoteOldPrimary kvl) =
      kvl.map (fun w => if w.ID = vid then { w with Status := Primary }
        else if w.Status = Primary then { w with Status := Active } else w) := by
  have hnd2 : ((demoteOldPrimary kvl).map KeyVersion.ID).Nodup := by
    rw [demote_preserves_id]; exact hnd
  have hex2 : vid ∈ (demoteOldPrimary kvl).map KeyVersion.ID := by
    rw [demote_preserves_id]
    exact List.mem_map.mpr ⟨v, hv, hid⟩
  rw [updFirst_eq_map Primary hnd2 hex2]
  simp only [demoteOldPrimary, List.map_map]
  refine List.map_congr_left (fun w hw => ?_)
  by_cases hwid : w.ID = vid
  · have hwv : w = v := kvl_id_inj hnd hw hv (by rw [hwid, hid])
    have hwstat : ¬ w.Status = Primary := by
      rw [hwv, hact]; simp [Active, Primary]
    simp [Function.comp_apply, hwid, hwstat]
  · by_cases hwp : w.Status = Primary
    · simp [Function.comp_apply, hwid, hwp]
    · simp [Function.comp_apply, hwid, hwp]

/-- Claim C2: `KeyVersionList.Update` realises the rotation state
machine on the nine `(from, to)` pairs over Primary/Active/Inactive:
Active→Primary succeeds and also demotes the old Primary to Active,
Active→Inactive and Inactive→Active succeed touching only the named
version, every other combination fails with the stated error, and an
unknown version id fails with `ErrKeyVersionNotFound` for every target
status. -/
theorem C2_update_state_machine (kvl : KeyVersionList) (vid : Nat)
    (hnd : (kvl.map KeyVersion.ID).Nodup) :
    ((∀ v ∈ kvl, v.ID ≠ vid) →
        ∀ s, kvlUpdate kvl vid s = .error .keyVersionNotFound) ∧
    (∀ v ∈ kvl, v.ID = vid →
      ((v.Status = Active → kvlUpdate kvl vid Primary =
          .ok (kvl.map (fun w => if w.ID = vid then { w with Status := Primary }
            else if w.Status = Primary then { w with Status := Active } else w))) ∧
       (v.Status ≠ Active →
          kvlUpdate kvl vid Primary = .error .inactiveToPrimary) ∧
       (v.Status = Inactive → kvlUpdate kvl vid Active =
          .ok (kvl.map (fun w =>
            if w.ID = vid then { w with Status := Active } else w))) ∧
       (v.Status ≠ Inactive →
          kvlUpdate kvl vid Active = .error .primaryToActive) ∧
       (v.Status = Active → kvlUpdate kvl vid Inactive =
          .ok (kvl.map (fun w =>
            if w.ID = vid then { w with Status := Inactive } else w))) ∧
       (v.Status ≠ Active →
          kvlUpdate kvl vid Inactive = .error .primaryToInactive))) := by
  constructor
  · intro habs s
    have hfind : kvl.find? (fun w => w.ID == vid) = none :=
      List.find?_eq_none.mpr (fun w hw => by simpa using habs w hw)
    simp only [kvlUpdate, hfind]
  · intro v hv hid
    have hfind : kvl.find? (fun w => w.ID == vid) = some v :=
      find_first_of_nodup hnd hv hid
    have hex : vid ∈ kvl.map KeyVersion.ID := List.mem_map.mpr ⟨v, hv, hid⟩
    refine ⟨fun hact => ?_, fun hnact => ?_, fun hina => ?_, fun hnina => ?_,
      fun hact => ?_, fun hnact => ?_⟩
    · have hc : ¬ (v.Status ≠ Active) := fun hne => hne hact
      simp only [kvlUpdate, hfind]
      rw [if_pos True.intro, if_neg hc, update_promote_form hnd hv hid hact]
    · have hc : (v.Status ≠ Active) := hnact
      simp only [kvlUpdate, hfind]
      rw [if_pos True.intro, if_pos hc]
    · have hc : ¬ (v.Status ≠ Inactive) := fun hne => hne hina
      simp only [kvlUpdate, hfind]
      rw [if_pos True.intro, if_neg hc, updFirst_eq_map Active hnd hex]
      simp [Primary, Active, Inactive]
    · have hc : (v.Status ≠ Inactive) := hnina
      simp only [kvlUpdate, hfind]
      rw [if_pos True.intro, if_pos hc]
      simp [Primary, Active, Inactive]
    · have hc : ¬ (v.Status ≠ Active) := fun hne => hne hact
      simp only [kvlUpdate, hfind]
      rw [if_pos True.intro, if_neg hc, updFirst_eq_map Inactive hnd hex]
      simp [Primary, Active, Inactive]
      exact hact
    · have hc : (v.Status ≠ Active) := hnact
      simp only [kvlUpdate, hfind]
      rw [if_pos True.intro, if_pos hc]
      simp [Primary, Active, Inactive]
      exact hnact

/-- Witness for C2: promoting the Active version 2 over the Primary
version 1 swaps their statuses. -/
theorem C2_update_state_machine_witness :
    (([⟨1, [], 0, 0⟩, ⟨2, [], 1, 0⟩] : KeyVersionList).map KeyVersion.ID).Nodup ∧
      kvlUpdate [⟨1, [], 0, 0⟩, ⟨2, [], 1, 0⟩] 2 Primary =
        .ok [⟨1, [], 1, 0⟩, ⟨2, [], 0, 0⟩] := by
  refine ⟨by decide, ?_⟩
  have h := ((C2_update_state_machine [⟨1, [], 0, 0⟩, ⟨2, [], 1, 0⟩] 2
    (by decide)).2 ⟨2, [], 1, 0⟩ (by decide) rfl).1 rfl
  rw [h]
  exact congrArg Except.ok (by decide)

/-! ## C7 — error envelope message -/

/-- Counterexample for C7: even for the bad-request subcode
`BadRequestDataCode`, `writeErr` puts the fixed map message
"Bad request format" in the envelope, not the error's own message
"boom" — so the server-side message never surfaces, bad-request
subcodes included. -/
theorem C7_counterexample :
    isBadRequestSubcode BadRequestDataCode = true ∧
    writeErr ⟨BadRequestDataCode, "boom"⟩ =
      .ok ⟨"error", BadRequestDataCode, "Bad request format", 400,
           ⟨BadRequestDataCode, "boom"⟩⟩ ∧
    "Bad request format" ≠ "boom" := by
  refine ⟨rfl, rfl, ?_⟩
  decide

/-- Claim C7 (amended): for every error with a mapped subcode, the
envelope's `message` field is the fixed `HTTPErrMap` message of the
subcode — independent of the error's own message, for bad-request
subcodes as for all others — while the error's own message is recorded
for the access logger. -/
theorem C7_envelope_message (e : httpError) (r : httpErrResp)
    (h : HTTPErrMap e.Subcode = some r) :
    writeErr e = .ok ⟨"error", e.Subcode, r.Message, r.Code, e⟩ ∧
    (∀ m, writeErr ⟨e.Subcode, m⟩ =
      .ok ⟨"error", e.Subcode, r.Message, r.Code, ⟨e.Subcode, m⟩⟩) ∧
    loggerMsg e = e.Message := by
  refine ⟨?_, fun m => ?_, rfl⟩
  · simp only [writeErr, h]
  · simp only [writeErr, h]

/-- Witness for C7 (amended) at the internal-server-error subcode. -/
theorem C7_envelope_message_witness :
    HTTPErrMap (httpError.Subcode ⟨InternalServerErrorCode, "db failure"⟩) =
      some ⟨500, "Internal Server Error"⟩ ∧
    writeErr ⟨InternalServerErrorCode, "db failure"⟩ =
      .ok ⟨"error", InternalServerErrorCode, "Internal Server Error", 500,
           ⟨InternalServerErrorCode, "db failure"⟩⟩ :=
  ⟨rfl, (C7_envelope_message ⟨InternalServerErrorCode, "db failure"⟩
    ⟨500, "Internal Server Error"⟩ rfl).1⟩

/-! ## C5 — TempDB.Update optimistic concurrency -/

lemma dbk_id_inj {keys : List DBKey} (hnd : (keys.map DBKey.ID).Nodup)
    {v w : DBKey} (hv : v ∈ keys) (hw : w ∈ keys) (h : v.ID = w.ID) :
    v = w :=
  List.inj_on_of_nodup_map hnd hv hw h

lemma tdbu_notfound (keys : List DBKey) (key : DBKey) (now : Int)
    (h : ∀ k ∈ keys, k.ID ≠ key.ID) :
    tempDBUpdate keys key now = (keys, some .keyIDNotFound) := by
  induction keys with
  | nil => rfl
  | cons d rest ih =>
      have hd : ¬ (d.ID = key.ID) := h d (List.mem_cons_self d rest)
      simp only [tempDBUpdate, if_neg hd,
        ih (fun k hk => h k (List.mem_cons_of_mem d hk))]

lemma tdbu_verfail (keys : List DBKey) (key : DBKey) (now : Int)
    (hnd : (keys.map DBKey.ID).Nodup)
    (hp : ∃ k ∈ keys, k.ID = key.ID ∧ k.DBVersion ≠ key.DBVersion) :
    tempDBUpdate keys key now = (keys, some .dbVersion) := by
  induction keys with
  | nil => obtain ⟨k, hk, _⟩ := hp; exact absurd hk (List.not_mem_nil k)
  | cons d rest ih =>
      obtain ⟨k, hk, hkid, hkv⟩ := hp
      by_cases hd : d.ID = key.ID
      · have hkd : k = d := by
          rcases List.mem_cons.mp hk with h1 | h1
          · exact h1
          · exact dbk_id_inj hnd hk (List.mem_cons_self d rest) (by rw [hkid, hd])
        have hdv : d.DBVersion ≠ key.DBVersion := hkd ▸ hkv
        simp only [tempDBUpdate, if_pos hd, if_pos hdv]
      · have hkrest : k ∈ rest := by
          rcases List.mem_cons.mp hk with h1 | h1
          · exact absurd (h1 ▸ hkid) hd
          · exact h1
        simp only [tempDBUpdate, if_neg hd]
        rw [ih (List.nodup_cons.mp (by simpa using hnd)).2 ⟨k, hkrest, hkid, hkv⟩]

lemma tdbu_success (keys : List DBKey) (key : DBKey) (now : Int)
    (hnd : (keys.map DBKey.ID).Nodup)
    (hp : ∃ k ∈ keys, k.ID = key.ID ∧ k.DBVersion = key.DBVersion) :
    tempDBUpdate keys key now =
      (keys.map (fun k => if k.ID = key.ID then { key with DBVersion := now }
        else k), none) := by
  induction keys with
  | nil => obtain ⟨k, hk, _⟩ := hp; exact absurd hk (List.not_mem_nil k)
  | cons d rest ih =>
      obtain ⟨k, hk, hkid, hkv⟩ := hp
      by_cases hd : d.ID = key.ID
      · have hkd : k = d := by
          rcases List.mem_cons.mp hk with h1 | h1
          · exact h1
          · exact dbk_id_inj hnd hk (List.mem_cons_self d rest) (by rw [hkid, hd])
        have hdv : ¬ (d.DBVersion ≠ key.DBVersion) := fun hne => hne (hkd ▸ hkv)
        have hrest : ∀ x ∈ rest, x.ID ≠ key.ID := by
          intro x hx hxid
          have hnot : d.ID ∉ rest.map DBKey.ID :=
            (List.nodup_cons.mp (by simpa using hnd)).1
          exact hnot (List.mem_map.mpr ⟨x, hx, by rw [hxid, hd]⟩)
        have hmap : rest.map (fun x => if x.ID = key.ID then
            { key with DBVersion := now } else x) = rest :=
          listMapIdOn (fun x hx => by rw [if_neg (hrest x hx)])
        simp only [tempDBUpdate, if_pos hd, if_neg hdv, List.map_cons, hmap]
      · have hkrest : k ∈ rest := by
          rcases List.mem_cons.mp hk with h1 | h1
          · exact absurd (h1 ▸ hkid) hd
          · exact h1
        simp only [tempDBUpdate, if_neg hd, List.map_cons]
        rw [ih (List.nodup_cons.mp (by simpa using hnd)).2 ⟨k, hkrest, hkid, hkv⟩]

lemma tdbu_none_iff (keys : List DBKey) (key : DBKey) (now : Int)
    (hnd : (keys.map DBKey.ID).Nodup) :
    (tempDBUpdate keys key now).2 = none ↔
      ∃ k ∈ keys, k.ID = key.ID ∧ k.DBVersion = key.DBVersion := by
  induction keys with
  | nil => simp [tempDBUpdate]
  | cons d rest ih =>
      by_cases hd : d.ID = key.ID
      · by_cases hdv : d.DBVersion = key.DBVersion
        · have hc : ¬ (d.DBVersion ≠ key.DBVersion) := fun hne => hne hdv
          simp only [tempDBUpdate, if_pos hd, if_neg hc]
          constructor
          · intro _; exact ⟨d, List.mem_cons_self d rest, hd, hdv⟩
          · intro _; trivial
        · simp only [tempDBUpdate, if_pos hd, if_pos hdv]
          constructor
          · intro h; exact absurd h (by simp)
          · intro ⟨k, hk, hkid, hkv⟩
            exfalso
            rcases List.mem_cons.mp hk with h1 | h1
            · exact hdv (h1 ▸ hkv)
            · have hkd : k = d := dbk_id_inj hnd hk
                (List.mem_cons_self d rest) (by rw [hkid, hd])
              exact hdv (hkd ▸ hkv)
      · simp only [tempDBUpdate, if_neg hd]
        rw [ih (List.nodup_cons.mp (by simpa using hnd)).2]
        constructor
        · intro ⟨k, hk, hkid, hkv⟩
          exact ⟨k, List.mem_cons_of_mem d hk, hkid, hkv⟩
        · intro ⟨k, hk, hkid, hkv⟩
          rcases List.mem_cons.mp hk with h1 | h1
          · exact absurd (h1 ▸ hkid) hd
          · exact ⟨k, h1, hkid, hkv⟩

/-- Claim C5: `TempDB.Update` succeeds iff a stored record has the
key's id and its token matches the key's; on success the record is
replaced and stamped with the fresh, strictly newer token `now`
(strict newness holds whenever the clock value exceeds every stored
token, as a nanosecond wall clock does between operations); a token
mismatch fails with `ErrDBVersion`, a missing id with
`ErrKeyIDNotFound`, and both failures leave the stored records
unchanged. -/
theorem C5_tempdb_update (keys : List DBKey) (key : DBKey) (now : Int)
    (hnd : (keys.map DBKey.ID).Nodup)
    (hfresh : ∀ k ∈ keys, k.DBVersion < now) :
    ((tempDBUpdate keys key now).2 = none ↔
        ∃ k ∈ keys, k.ID = key.ID ∧ k.DBVersion = key.DBVersion) ∧
    ((∃ k ∈ keys, k.ID = key.ID ∧ k.DBVersion = key.DBVersion) →
        tempDBUpdate keys key now =
          (keys.map (fun k => if k.ID = key.ID then
            { key with DBVersion := now } else k), none) ∧
        key.DBVersion < now) ∧
    ((∃ k ∈ keys, k.ID = key.ID ∧ k.DBVersion ≠ key.DBVersion) →
        tempDBUpdate keys key now = (keys, some .dbVersion)) ∧
    ((∀ k ∈ keys, k.ID ≠ key.ID) →
        tempDBUpdate keys key now = (keys, some .keyIDNotFound)) := by
  refine ⟨tdbu_none_iff keys key now hnd, fun hp => ?_,
    fun hp => tdbu_verfail keys key now hnd hp,
    fun h => tdbu_notfound keys key now h⟩
  obtain ⟨k, hk, hkid, hkv⟩ := hp
  exact ⟨tdbu_success keys key now hnd ⟨k, hk, hkid, hkv⟩,
    hkv ▸ hfresh k hk⟩

/-- Witness for C5: a matching token update succeeds and stamps the
fresh token. -/
theorem C5_tempdb_update_witness :
    (([⟨"a", [], [], "h", 5⟩] : List DBKey).map DBKey.ID).Nodup ∧
    (∀ k ∈ ([⟨"a", [], [], "h", 5⟩] : List DBKey), k.DBVersion < 7) ∧
    tempDBUpdate [⟨"a", [], [], "h", 5⟩] ⟨"a", [], [], "h2", 5⟩ 7 =
      ([⟨"a", [], [], "h2", 7⟩], none) := by
  refine ⟨by decide, by decide, ?_⟩
  have h := ((C5_tempdb_update [⟨"a", [], [], "h", 5⟩] ⟨"a", [], [], "h2", 5⟩ 7
    (by decide) (by decide)).2.1
    ⟨⟨"a", [], [], "h", 5⟩, by decide, rfl, rfl⟩).1
  rw [h]
  decide

/-! ## C4 — key-manager GetKey status filter -/

/-- Claim C4: for a stored key that decrypts, `GetKey` returns the full
version list for the `Inactive` filter, the Primary+Active versions for
the `Active` filter, the `[Primary]` list for the `Primary` filter, and
fails with `ErrInvalidStatus` on any other status value. -/
theorem C4_manager_get_key (A : AEADModel) (c : aesGCMCryptor)
    (keys : List DBKey) (id : String) (encK : DBKey) (k : Key)
    (hget : tempDBGet keys id = .ok encK)
    (hdec : decryptKey A c encK = .ok k) :
    managerGetKey A c keys id Inactive = .ok k ∧
    managerGetKey A c keys id Active =
      .ok { k with VersionList := getActive k.VersionList } ∧
    (∀ p, getPrimary k.VersionList = some p →
        managerGetKey A c keys id Primary = .ok { k with VersionList := [p] }) ∧
    (∀ s : Int, s ≠ Inactive → s ≠ Active → s ≠ Primary →
        managerGetKey A c keys id s = .err .invalidStatus) := by
  refine ⟨?_, ?_, fun p hp => ?_, fun s h1 h2 h3 => ?_⟩
  · simp only [managerGetKey, hget, hdec]
    simp
  · simp only [managerGetKey, hget, hdec]
    simp [Primary, Active, Inactive]
  · simp only [managerGetKey, hget, hdec, hp]
    simp [Primary, Active, Inactive]
  · simp only [managerGetKey, hget, hdec]
    rw [if_neg h1, if_neg h2, if_neg h3]

/-- Witness for C4: a one-version key under a trivially-opening AEAD
model, fetched with the `Primary` filter. -/
theorem C4_manager_get_key_witness :
    tempDBGet [⟨"a", [], [⟨1, [7], 0, 0, [10]⟩], "h", 0⟩] "a" =
      .ok ⟨"a", [], [⟨1, [7], 0, 0, [10]⟩], "h", 0⟩ ∧
    decryptKey ⟨fun _ pt _ => pt, fun _ ct _ => some ct⟩
        ⟨List.replicate 16 0, 10⟩ ⟨"a", [], [⟨1, [7], 0, 0, [10]⟩], "h", 0⟩ =
      .ok ⟨"a", [], [⟨1, [7], 0, 0⟩], "h"⟩ ∧
    managerGetKey ⟨fun _ pt _ => pt, fun _ ct _ => some ct⟩
        ⟨List.replicate 16 0, 10⟩ [⟨"a", [], [⟨1, [7], 0, 0, [10]⟩], "h", 0⟩]
        "a" Primary =
      .ok ⟨"a", [], [⟨1, [7], 0, 0⟩], "h"⟩ := by
  refine ⟨rfl, rfl, ?_⟩
  exact (C4_manager_get_key ⟨fun _ pt _ => pt, fun _ ct _ => some ct⟩
    ⟨List.replicate 16 0, 10⟩ [⟨"a", [], [⟨1, [7], 0, 0, [10]⟩], "h", 0⟩] "a"
    ⟨"a", [], [⟨1, [7], 0, 0, [10]⟩], "h", 0⟩ ⟨"a", [], [⟨1, [7], 0, 0⟩], "h"⟩
    rfl rfl).2.2.1 ⟨1, [7], 0, 0⟩ rfl

/-! ## C10 — AddVersion discards the encryption error -/

/-- Claim C10: when `EncryptVersion` fails inside
`keyManager.AddVersion` (here: an invalid AES key length), the error is
discarded and the nil `encV` pointer is dereferenced — `AddVersion`
crashes on that path instead of returning the encryption error to its
caller. -/
theorem C10_add_version_crash (A : AEADModel) (c : aesGCMCryptor)
    (keys : List DBKey) (id : String) (v : KeyVersion) (nonce : List Nat)
    (now : Int) (encK : DBKey) (k : Key)
    (hkey : validAESKeyLen c.keyData.length = false)
    (hget : tempDBGet keys id = .ok encK)
    (hdec : decryptKey A c encK = .ok k)
    (hval : keyValidate
      ⟨k.ID, k.acl, k.VersionList ++ [v], kvlHash (k.VersionList ++ [v])⟩ =
        none) :
    managerAddVersion A c keys id v nonce now = .crash ∧
    (∀ e : Err, managerAddVersion A c keys id v nonce now ≠ .err e) := by
  have hmain : managerAddVersion A c keys id v nonce now = .crash := by
    simp only [managerAddVersion, hget, hdec, hval, encryptVersion, hkey]
    simp
  exact ⟨hmain, fun e h => by rw [hmain] at h; exact Res.noConfusion h⟩

/-- Witness for C10: a cryptor with a 9-byte AES key ("notAESlen", as
in the repository's own `TestBadKeyData`) and a stored key with no
versions: decryption succeeds vacuously, validation passes, and
`AddVersion` crashes on the discarded encryption error. -/
theorem C10_add_version_crash_witness :
    validAESKeyLen (List.replicate 9 0).length = false ∧
    managerAddVersion ⟨fun _ pt _ => pt, fun _ ct _ => some ct⟩
        ⟨List.replicate 9 0, 10⟩ [⟨"a", [], [], "", 0⟩] "a"
        ⟨1, [], 0, 5⟩ [] 7 = .crash := by
  refine ⟨rfl, ?_⟩
  exact (C10_add_version_crash ⟨fun _ pt _ => pt, fun _ ct _ => some ct⟩
    ⟨List.replicate 9 0, 10⟩ [⟨"a", [], [], "", 0⟩] "a" ⟨1, [], 0, 5⟩ [] 7
    ⟨"a", [], [], "", 0⟩ ⟨"a", [], [], ""⟩ rfl rfl rfl (by decide)).1

/-! ## C8 — client retry loop and backoff bounds -/

lemma ghd_len (resps : Nat → HRes) :
    ∀ fuel i, (ghdLoop resps i fuel).attempts.length ≤ fuel := by
  intro fuel
  induction fuel with
  | zero => intro i; simp [ghdLoop]
  | succ n ih =>
      intro i
      rcases hres : resps i with _ | _ | ⟨st, code, msg⟩
      · simp [ghdLoop, hres]
      · simp [ghdLoop, hres]
      · simp only [ghdLoop, hres]
        by_cases hst : st = "ok"
        · rw [if_neg (fun hne => hne hst)]
          simp
        · rw [if_pos hst]
          by_cases hterm : code ≠ InternalServerErrorCode ∨ i = maxRetryAttempts
          · rw [if_pos hterm]; simp
          · rw [if_neg hterm]
            simpa using ih (i + 1)

lemma ghd_mem_ge (resps : Nat → HRes) :
    ∀ fuel i j, j ∈ (ghdLoop resps i fuel).attempts → i ≤ j := by
  intro fuel
  induction fuel with
  | zero => intro i j h; simp [ghdLoop] at h
  | succ n ih =>
      intro i j h
      rcases hres : resps i with _ | _ | ⟨st, code, msg⟩ <;>
        simp only [ghdLoop, hres] at h
      · simp at h; omega
      · simp at h; omega
      · by_cases hst : st = "ok"
        · rw [if_neg (fun hne => hne hst)] at h
          simp at h; omega
        · rw [if_pos hst] at h
          by_cases hterm : code ≠ InternalServerErrorCode ∨ i = maxRetryAttempts
          · rw [if_pos hterm] at h; simp at h; omega
          · rw [if_neg hterm] at h
            simp only [List.mem_cons] at h
            rcases h with h | h
            · omega
            · have := ih (i + 1) j h
              omega

lemma ghd_head (resps : Nat → HRes) :
    ∀ fuel i, fuel ≠ 0 → ∃ t, (ghdLoop resps i fuel).attempts = i :: t := by
  intro fuel i hf
  cases fuel with
  | zero => exact absurd rfl hf
  | succ n =>
      rcases hres : resps i with _ | _ | ⟨st, code, msg⟩ <;>
        simp only [ghdLoop, hres]
      · exact ⟨[], rfl⟩
      · exact ⟨[], rfl⟩
      · by_cases hst : st = "ok"
        · rw [if_neg (fun hne => hne hst)]
          exact ⟨[], rfl⟩
        · rw [if_pos hst]
          by_cases hterm : code ≠ InternalServerErrorCode ∨ i = maxRetryAttempts
          · rw [if_pos hterm]; exact ⟨[], rfl⟩
          · rw [if_neg hterm]
            exact ⟨(ghdLoop resps (i + 1) n).attempts, rfl⟩

lemma ghd_succ_mem (resps : Nat → HRes) :
    ∀ fuel i j, (j + 1) ∈ (ghdLoop resps i fuel).attempts →
      j + 1 = i ∨ (j ∈ (ghdLoop resps i fuel).attempts ∧
        ∃ st msg, resps j = .body st InternalServerErrorCode msg ∧ st ≠ "ok") := by
  intro fuel
  induction fuel with
  | zero => intro i j h; simp [ghdLoop] at h
  | succ n ih =>
      intro i j h
      rcases hres : resps i with _ | _ | ⟨st, code, msg⟩ <;>
        simp only [ghdLoop, hres] at h ⊢
      · simp at h; exact Or.inl h
      · simp at h; exact Or.inl h
      · by_cases hst : st = "ok"
        · rw [if_neg (fun hne => hne hst)] at h ⊢
          simp at h; exact Or.inl h
        · rw [if_pos hst] at h ⊢
          by_cases hterm : code ≠ InternalServerErrorCode ∨ i = maxRetryAttempts
          · rw [if_pos hterm] at h ⊢
            simp at h; exact Or.inl h
          · rw [if_neg hterm] at h ⊢
            push_neg at hterm
            simp only [List.mem_cons] at h
            rcases h with h | h
            · exact Or.inl h
            · rcases ih (i + 1) j h with h1 | ⟨h1, h2⟩
              · have hji : j = i := by omega
                refine Or.inr ⟨by simp only [List.mem_cons]; exact Or.inl hji, ?_⟩
                rw [hji, hres, hterm.1]
                exact ⟨st, msg, rfl, hst⟩
              · exact Or.inr ⟨by simp [h1], h2⟩

lemma ghd_terminal (resps : Nat → HRes) :
    ∀ fuel i j, j ∈ (ghdLoop resps i fuel).attempts →
      ((resps j = .transportErr →
          (ghdLoop resps i fuel).out = .errTransport ∧
          (j + 1) ∉ (ghdLoop resps i fuel).attempts) ∧
       (resps j = .decodeErr →
          (ghdLoop resps i fuel).out = .errDecode ∧
          (j + 1) ∉ (ghdLoop resps i fuel).attempts) ∧
       (∀ st code msg, resps j = .body st code msg → st ≠ "ok" →
          code ≠ InternalServerErrorCode →
          (ghdLoop resps i fuel).out = .errMsg msg ∧
          (j + 1) ∉ (ghdLoop resps i fuel).attempts)) := by
  intro fuel
  induction fuel with
  | zero => intro i j h; simp [ghdLoop] at h
  | succ n ih =>
      intro i j h
      rcases hres : resps i with _ | _ | ⟨st0, code0, msg0⟩ <;>
        simp only [ghdLoop, hres] at h ⊢
      · simp only [List.mem_singleton] at h
        subst h
        refine ⟨fun _ => ⟨by trivial, by simp⟩,
          fun hj => ?_, fun st code msg hj _ _ => ?_⟩
        · rw [hres] at hj; exact HRes.noConfusion hj
        · rw [hres] at hj; exact HRes.noConfusion hj
      · simp only [List.mem_singleton] at h
        subst h
        refine ⟨fun hj => ?_, fun _ => ⟨by trivial, by simp⟩,
          fun st code msg hj _ _ => ?_⟩
        · rw [hres] at hj; exact HRes.noConfusion hj
        · rw [hres] at hj; exact HRes.noConfusion hj
      · by_cases hst : st0 = "ok"
        · rw [if_neg (fun hne => hne hst)] at h ⊢
          simp only [List.mem_singleton] at h
          subst h
          refine ⟨fun hj => ?_, fun hj => ?_, fun st code msg hj hne _ => ?_⟩
          · rw [hres] at hj; exact HRes.noConfusion hj
          · rw [hres] at hj; exact HRes.noConfusion hj
          · rw [hres] at hj
            injection hj with e1 e2 e3
            exact absurd hst (fun hcon => hne (e1 ▸ hcon))
        · rw [if_pos hst] at h ⊢
          by_cases hterm : code0 ≠ InternalServerErrorCode ∨ i = maxRetryAttempts
          · rw [if_pos hterm] at h ⊢
            simp only [List.mem_singleton] at h
            subst h
            refine ⟨fun hj => ?_, fun hj => ?_, fun st code msg hj hne hni => ?_⟩
            · rw [hres] at hj; exact HRes.noConfusion hj
            · rw [hres] at hj; exact HRes.noConfusion hj
            · rw [hres] at hj
              injection hj with e1 e2 e3
              refine ⟨by rw [e3], by simp⟩
          · rw [if_neg hterm] at h ⊢
            push_neg at hterm
            simp only [List.mem_cons] at h
            rcases h with hji | hmem
            · subst hji
              refine ⟨fun hj => ?_, fun hj => ?_, fun st code msg hj hne hni => ?_⟩
              · rw [hres] at hj; exact HRes.noConfusion hj
              · rw [hres] at hj; exact HRes.noConfusion hj
              · rw [hres] at hj
                injection hj with e1 e2 e3
                exact absurd (e2 ▸ hterm.1) hni
            · have hge : i + 1 ≤ j := ghd_mem_ge resps n (i + 1) j hmem
              have hIH := ih (i + 1) j hmem
              refine ⟨fun hj => ?_, fun hj => ?_, fun st code msg hj hne hni => ?_⟩
              · obtain ⟨ho, hnm⟩ := hIH.1 hj
                refine ⟨ho, ?_⟩
                simp only [List.mem_cons]
                push_neg
                exact ⟨by omega, hnm⟩
              · obtain ⟨ho, hnm⟩ := hIH.2.1 hj
                refine ⟨ho, ?_⟩
                simp only [List.mem_cons]
                push_neg
                exact ⟨by omega, hnm⟩
              · obtain ⟨ho, hnm⟩ := hIH.2.2 st code msg hj hne hni
                refine ⟨ho, ?_⟩
                simp only [List.mem_cons]
                push_neg
                exact ⟨by omega, hnm⟩

lemma ghd_sleeps (resps : Nat → HRes) :
    ∀ fuel i, i + fuel = maxRetryAttempts + 1 →
      ∀ j ∈ (ghdLoop resps i fuel).sleeps,
        j ∈ (ghdLoop resps i fuel).attempts ∧
        (j + 1) ∈ (ghdLoop resps i fuel).attempts := by
  intro fuel
  induction fuel with
  | zero => intro i _ j h; simp [ghdLoop] at h
  | succ n ih =>
      intro i halign j h
      rcases hres : resps i with _ | _ | ⟨st, code, msg⟩ <;>
        simp only [ghdLoop, hres] at h ⊢
      · simp at h
      · simp at h
      · by_cases hst : st = "ok"
        · rw [if_neg (fun hne => hne hst)] at h
          simp at h
        · rw [if_pos hst] at h ⊢
          by_cases hterm : code ≠ InternalServerErrorCode ∨ i = maxRetryAttempts
          · rw [if_pos hterm] at h; simp at h
          · rw [if_neg hterm] at h ⊢
            push_neg at hterm
            have hn0 : n ≠ 0 := by
              simp only [maxRetryAttempts] at halign hterm
              omega
            simp only [List.mem_cons] at h
            rcases h with hji | hmem
            · subst hji
              obtain ⟨t, ht⟩ := ghd_head resps n (j + 1) hn0
              refine ⟨by simp, ?_⟩
              simp only [List.mem_cons, ht]
              simp
            · have hrec := ih (i + 1) (by omega) j hmem
              exact ⟨by simp [hrec.1], by simp [hrec.2]⟩

lemma backoff_bounds (r : ℚ) (attempt : Int) (h0 : 0 ≤ r) (_h1 : r < 1)
    (ha : 1 ≤ attempt) :
    baseBackoff ≤ getBackoffDuration r attempt ∧
      getBackoffDuration r attempt ≤ maxBackoff := by
  have hnn : (0 : ℚ) ≤ r * (attempt : ℚ) := by
    apply mul_nonneg h0
    exact_mod_cast le_trans zero_le_one ha
  have hlow : (baseBackoff : ℚ) ≤ r * (attempt : ℚ) + (baseBackoff : ℚ) := by
    linarith
  simp only [getBackoffDuration]
  by_cases hcap : r * (attempt : ℚ) + (baseBackoff : ℚ) > (maxBackoff : ℚ)
  · rw [if_pos hcap]
    constructor
    · simp [baseBackoff, maxBackoff]
    · exact le_refl _
  · rw [if_neg hcap]
    push_neg at hcap
    constructor
    · exact Int.le_floor.mpr hlow
    · calc ⌊r * (attempt : ℚ) + (baseBackoff : ℚ)⌋ ≤ ⌊(maxBackoff : ℚ)⌋ :=
            Int.floor_le_floor hcap
        _ = maxBackoff := Int.floor_intCast maxBackoff

/-- Claim C8: the `getHTTPData` retry loop makes at most 3 attempts; a
further attempt happens only after a decoded non-ok envelope whose code
is `InternalServerErrorCode`; a transport error, a decode error, or a
non-ok envelope with any other code is surfaced immediately with no
further attempt; each sleep sits between two consecutive attempts; and
every value of `GetBackoffDuration` lies between 50 ms and 3 s. -/
theorem C8_retry_policy (resps : Nat → HRes) :
    (getHTTPData resps).attempts.length ≤ maxRetryAttempts ∧
    (∀ j, 1 ≤ j → (j + 1) ∈ (getHTTPData resps).attempts →
       j ∈ (getHTTPData resps).attempts ∧
       ∃ st msg, resps j = .body st InternalServerErrorCode msg ∧ st ≠ "ok") ∧
    (∀ j ∈ (getHTTPData resps).attempts,
       (resps j = .transportErr → (getHTTPData resps).out = .errTransport ∧
          (j + 1) ∉ (getHTTPData resps).attempts) ∧
       (resps j = .decodeErr → (getHTTPData resps).out = .errDecode ∧
          (j + 1) ∉ (getHTTPData resps).attempts) ∧
       (∀ st code msg, resps j = .body st code msg → st ≠ "ok" →
          code ≠ InternalServerErrorCode →
          (getHTTPData resps).out = .errMsg msg ∧
            (j + 1) ∉ (getHTTPData resps).attempts)) ∧
    (∀ j ∈ (getHTTPData resps).sleeps,
       j ∈ (getHTTPData resps).attempts ∧
         (j + 1) ∈ (getHTTPData resps).attempts) ∧
    (∀ (r : ℚ) (attempt : Int), 0 ≤ r → r < 1 → 1 ≤ attempt →
       baseBackoff ≤ getBackoffDuration r attempt ∧
         getBackoffDuration r attempt ≤ maxBackoff) := by
  refine ⟨ghd_len resps maxRetryAttempts 1, fun j hj hmem => ?_,
    fun j hj => ghd_terminal resps maxRetryAttempts 1 j hj,
    fun j hj => ghd_sleeps resps maxRetryAttempts 1 rfl j hj,
    fun r attempt h0 h1 ha => backoff_bounds r attempt h0 h1 ha⟩
  rcases ghd_succ_mem resps maxRetryAttempts 1 j hmem with h | h
  · omega
  · exact h

/-- Witness for C8: a 500 on the first attempt, a non-ok code-4
envelope on the second; the loop stops there with that message, and the
backoff value for the first sleep is within bounds. -/
theorem C8_retry_policy_witness :
    (2 : Nat) ∈ (getHTTPData (fun i => if i = 1 then
        .body "error" InternalServerErrorCode "oops"
      else .body "error" 4 "bad")).attempts ∧
    ((getHTTPData (fun i => if i = 1 then
        .body "error" InternalServerErrorCode "oops"
      else .body "error" 4 "bad")).out = .errMsg "bad" ∧
      (3 : Nat) ∉ (getHTTPData (fun i => if i = 1 then
        .body "error" InternalServerErrorCode "oops"
      else .body "error" 4 "bad")).attempts) ∧
    (baseBackoff ≤ getBackoffDuration (1/2) 1 ∧
      getBackoffDuration (1/2) 1 ≤ maxBackoff) := by
  refine ⟨by decide, ?_, ?_⟩
  · exact ((C8_retry_policy (fun i => if i = 1 then
        .body "error" InternalServerErrorCode "oops"
      else .body "error" 4 "bad")).2.2.1 2 (by decide)).2.2
      "error" 4 "bad" (by decide) (by decide) (by decide)
  · exact (C8_retry_policy (fun i => if i = 1 then
        .body "error" InternalServerErrorCode "oops"
      else .body "error" 4 "bad")).2.2.2.2 (1/2) 1 (by norm_num)
      (by norm_num) (by norm_num)

/-! ## C3 — encrypt-then-decrypt round trip -/

lemma encryptVersion_ok (A : AEADModel) (c : aesGCMCryptor) (k : Key)
    (v : KeyVersion) (nonce : List Nat)
    (hkey : validAESKeyLen c.keyData.length = true) :
    encryptVersion A c k v nonce =
      .ok ⟨v.ID, A.Seal nonce v.Data (generateAD k.ID v.ID v.CreationTime),
           v.Status, v.CreationTime, buildMetadata c.version nonce⟩ := by
  simp [encryptVersion, hkey]

lemma decryptVersion_roundtrip (A : AEADModel) (c : aesGCMCryptor)
    (hrt : aeadRoundtrip A) (hkey : validAESKeyLen c.keyData.length = true)
    (dbk : DBKey) (k : Key) (hid : dbk.ID = k.ID) (v : KeyVersion)
    (nonce : List Nat) :
    decryptVersion A c dbk
      ⟨v.ID, A.Seal nonce v.Data (generateAD k.ID v.ID v.CreationTime),
       v.Status, v.CreationTime, buildMetadata c.version nonce⟩ = .ok v := by
  simp only [decryptVersion, buildMetadata, hid, hkey, if_true]
  rw [hrt nonce v.Data (generateAD k.ID v.ID v.CreationTime),
    if_neg (fun hne => hne rfl)]

lemma encdec_versions (A : AEADModel) (c : aesGCMCryptor)
    (hrt : aeadRoundtrip A) (hkey : validAESKeyLen c.keyData.length = true)
    (k : Key) (nonces : Nat → List Nat) :
    ∀ (vs : List KeyVersion) (i : Nat), ∃ evs,
      encVersions A c k nonces i vs = .ok evs ∧
      ∀ dbk : DBKey, dbk.ID = k.ID → decVersions A c dbk evs = .ok vs := by
  intro vs
  induction vs with
  | nil => exact fun i => ⟨[], rfl, fun _ _ => rfl⟩
  | cons v rest ih =>
      intro i
      obtain ⟨evs, h1, h2⟩ := ih (i + 1)
      refine ⟨⟨v.ID, A.Seal (nonces i) v.Data
          (generateAD k.ID v.ID v.CreationTime), v.Status, v.CreationTime,
          buildMetadata c.version (nonces i)⟩ :: evs, ?_, ?_⟩
      · simp only [encVersions, encryptVersion_ok A c k v (nonces i) hkey, h1]
      · intro dbk hid
        simp only [decVersions,
          decryptVersion_roundtrip A c hrt hkey dbk k hid v (nonces i),
          h2 dbk hid]

/-- Claim C3: encrypting a valid key and decrypting the result under
the same cryptor (same scheme version byte, same symmetric key of a
legal AES length) returns the original key — id, ACL, version hash and
the full version list with every field — given the AEAD round-trip
contract of `cipher.AEAD` (AES-GCM). -/
theorem C3_encrypt_decrypt (A : AEADModel) (c : aesGCMCryptor) (k : Key)
    (nonces : Nat → List Nat) (hrt : aeadRoundtrip A)
    (hkey : validAESKeyLen c.keyData.length = true)
    (_hval : keyValidate k = none) :
    resBind (encryptKey A c k nonces) (decryptKey A c) = .ok k := by
  obtain ⟨evs, h1, h2⟩ := encdec_versions A c hrt hkey k nonces k.VersionList 0
  have henc : encryptKey A c k nonces =
      .ok ⟨k.ID, k.acl, evs, k.VersionHash, 0⟩ := by
    simp only [encryptKey, h1]
  rw [henc]
  show decryptKey A c ⟨k.ID, k.acl, evs, k.VersionHash, 0⟩ = .ok k
  have hdec := h2 ⟨k.ID, k.acl, evs, k.VersionHash, 0⟩ rfl
  simp only [decryptKey, hdec]

/-- Witness for C3 with the identity AEAD model (which satisfies the
round-trip contract), a 16-byte key and a one-version valid key. -/
theorem C3_encrypt_decrypt_witness :
    aeadRoundtrip ⟨fun _ pt _ => pt, fun _ ct _ => some ct⟩ ∧
    validAESKeyLen (List.replicate 16 0).length = true ∧
    keyValidate ⟨"a", [], [⟨1, [], 0, 0⟩], kvlHash [⟨1, [], 0, 0⟩]⟩ = none ∧
    resBind (encryptKey ⟨fun _ pt _ => pt, fun _ ct _ => some ct⟩
        ⟨List.replicate 16 0, 10⟩
        ⟨"a", [], [⟨1, [], 0, 0⟩], kvlHash [⟨1, [], 0, 0⟩]⟩ (fun _ => []))
      (decryptKey ⟨fun _ pt _ => pt, fun _ ct _ => some ct⟩
        ⟨List.replicate 16 0, 10⟩) =
      .ok ⟨"a", [], [⟨1, [], 0, 0⟩], kvlHash [⟨1, [], 0, 0⟩]⟩ :=
  ⟨fun _ _ _ => rfl, rfl, by decide,
   C3_encrypt_decrypt ⟨fun _ pt _ => pt, fun _ ct _ => some ct⟩
     ⟨List.replicate 16 0, 10⟩
     ⟨"a", [], [⟨1, [], 0, 0⟩], kvlHash [⟨1, [], 0, 0⟩]⟩ (fun _ => [])
     (fun _ _ _ => rfl) rfl (by decide)⟩

/-! ## C9 — registration-file lock scope in the refresh daemon -/

lemma noUnlock_perCached (cids rids : List String) :
    DEv.unlock ∉ perCachedEvents cids rids := by
  intro h
  simp only [perCachedEvents, List.mem_map] at h
  obtain ⟨id, _, hid⟩ := h
  by_cases hm : id ∈ rids
  · rw [if_pos hm] at hid; exact DEv.noConfusion hid
  · rw [if_neg hm] at hid; exact DEv.noConfusion hid

lemma noUnlock_processKey (o : NetKeyOutcome) (id : String) :
    DEv.unlock ∉ processKeyEvents o id := by
  intro h
  simp only [processKeyEvents, List.mem_cons] at h
  rcases h with h | h
  · exact DEv.noConfusion h
  · cases o <;> simp at h

lemma noUnlock_netPhase (w : DaemonWorld) :
    DEv.unlock ∉ updateNetPhase w := by
  intro h
  simp only [updateNetPhase] at h
  by_cases hreg : w.regIDs = []
  · rw [if_pos hreg] at h; simp at h
  · rw [if_neg hreg] at h
    simp only [List.mem_cons] at h
    rcases h with h | h
    · exact DEv.noConfusion h
    · cases hres : w.getKeysRes with
      | none => rw [hres] at h; simp at h
      | some updated =>
          rw [hres] at h
          simp only [List.mem_flatMap] at h
          obtain ⟨id, _, hid⟩ := h
          exact noUnlock_processKey (w.netKeyRes id) id hid

/-- Counterexample for C9: with one registered key and a successful
list-changed call, the trace of `daemon.update` is
`[lock, readReg, netGetKeys, netGetKey "k1", unlock]`; at the
list-changed request one lock and no unlock precede, so the lock has
not been released before the network call, contradicting the claim. -/
theorem C9_counterexample :
    ¬ (∀ pre ev suf,
        updateEvents ⟨true, true, ["k1"], [], some ["k1"], fun _ => .okKey⟩ =
          pre ++ ev :: suf → isNetworkEv ev = true →
        pre.count DEv.lock ≤ pre.count DEv.unlock) := by
  intro h
  have hc := h [DEv.lock, DEv.readReg] DEv.netGetKeys
    [DEv.netGetKey "k1", DEv.unlock] (by decide) rfl
  simp [List.count_cons] at hc

/-- Claim C9 (amended): during every `daemon.update` run the
registration-file lock is held *across* the network phase — at the
list-changed request and at every per-key fetch, strictly more lock
acquisitions than releases precede the event (the `defer`red `Unlock`
of daemon.go line 162 runs only when `update` returns). -/
theorem C9_lock_held_across_network (w : DaemonWorld)
    (pre : List DEv) (ev : DEv) (suf : List DEv)
    (h : updateEvents w = pre ++ ev :: suf) (hnet : isNetworkEv ev = true) :
    pre.count DEv.unlock < pre.count DEv.lock := by
  have hevne : ev ≠ DEv.unlock := by
    intro he
    rw [he] at hnet
    exact absurd hnet (by simp [isNetworkEv])
  by_cases hlock : w.lockOK
  case neg =>
    have hl : w.lockOK = false := by revert hlock; cases w.lockOK <;> simp
    have hw : updateEvents w = [] := by simp [updateEvents, hl]
    rw [hw] at h
    have hcon := congrArg List.length h
    simp only [List.length_nil, List.length_append, List.length_cons] at hcon
    omega
  case pos =>
  by_cases hread : w.readOK
  case neg =>
    have hr : w.readOK = false := by revert hread; cases w.readOK <;> simp
    have hw : updateEvents w = [DEv.lock, DEv.readReg, DEv.unlock] := by
      simp [updateEvents, hlock, hr]
    have hev : ev ∈ updateEvents w := by
      rw [h]; simp
    rw [hw] at hev
    simp only [List.mem_cons] at hev
    rcases hev with h1 | h1 | h1 | h1
    · subst h1; exact absurd hnet (by simp [isNetworkEv])
    · subst h1; exact absurd hnet (by simp [isNetworkEv])
    · subst h1; exact absurd hnet (by simp [isNetworkEv])
    · simp at h1
  case pos =>
  have hw : updateEvents w = DEv.lock :: DEv.readReg ::
      (perCachedEvents w.cachedIDs w.regIDs ++ updateNetPhase w ++
        [DEv.unlock]) := by
    simp [updateEvents, hlock, hread]
  rw [hw] at h
  match pre, h with
  | [], h =>
      injection h with h1 _
      rw [← h1] at hnet
      exact absurd hnet (by simp [isNetworkEv])
  | [p0], h =>
      injection h with h1 h2
      injection h2 with h2 _
      rw [← h2] at hnet
      exact absurd hnet (by simp [isNetworkEv])
  | p0 :: p1 :: pre2, h =>
      injection h with h1 h2
      injection h2 with h2 h3
      subst h1; subst h2
      have hM1 : (perCachedEvents w.cachedIDs w.regIDs).count DEv.unlock = 0 :=
        List.count_eq_zero.mpr (noUnlock_perCached w.cachedIDs w.regIDs)
      have hM2 : (updateNetPhase w).count DEv.unlock = 0 :=
        List.count_eq_zero.mpr (noUnlock_netPhase w)
      have hcount := congrArg (List.count DEv.unlock) h3
      simp only [List.append_eq, List.count_append, List.count_cons, hM1, hM2,
        List.count_singleton] at hcount
      have hsufpos : 0 < suf.count DEv.unlock := by
        have hlast : (perCachedEvents w.cachedIDs w.regIDs ++
            updateNetPhase w ++ [DEv.unlock]).getLast? = some DEv.unlock := by
          rw [List.getLast?_concat]
        rw [h3] at hlast
        have hgl : (pre2.append (ev :: suf)).getLast? =
            (ev :: suf).getLast? := by
          simp only [List.append_eq]
          exact List.getLast?_append_of_ne_nil _ (by simp)
        rw [hgl] at hlast
        have hopt : DEv.unlock ∈ (ev :: suf).getLast? := by rw [hlast]; rfl
        obtain ⟨hne2, heq⟩ := List.mem_getLast?_eq_getLast hopt
        have hmem : DEv.unlock ∈ ev :: suf := by
          rw [heq]; exact List.getLast_mem hne2
        rcases List.mem_cons.mp hmem with hm | hm
        · exact absurd hm.symm hevne
        · exact List.count_pos_iff.mpr hm
      have hz : pre2.count DEv.unlock = 0 := by
        have hne2 : (ev == DEv.unlock) = false := by simp [hevne]
        simp only [List.count_nil, hne2, beq_self_eq_true, Bool.false_eq_true,
          if_false, if_true] at hcount
        omega
      have hgoal : (DEv.lock :: DEv.readReg :: pre2).count DEv.unlock = 0 := by
        simp [List.count_cons, hz]
      rw [hgoal]
      simp [List.count_cons]

/-- Witness for C9 (amended): at the concrete one-key world the
list-changed request happens with the lock held. -/
theorem C9_lock_held_across_network_witness :
    updateEvents ⟨true, true, ["k1"], [], some ["k1"], fun _ => .okKey⟩ =
      [DEv.lock, DEv.readReg] ++ DEv.netGetKeys ::
        [DEv.netGetKey "k1", DEv.unlock] ∧
    isNetworkEv DEv.netGetKeys = true ∧
    ([DEv.lock, DEv.readReg].count DEv.unlock <
      [DEv.lock, DEv.readReg].count DEv.lock) :=
  ⟨by decide, rfl,
   C9_lock_held_across_network
     ⟨true, true, ["k1"], [], some ["k1"], fun _ => .okKey⟩
     [DEv.lock, DEv.readReg] DEv.netGetKeys [DEv.netGetKey "k1", DEv.unlock]
     (by decide) rfl⟩

/-! ## C1 — what the version hash depends on -/

lemma kvlValidateGo_none :
    ∀ (kvl : KeyVersionList) (pc : Nat) (seen : List Nat),
      kvlValidateGo kvl pc seen = none →
      (∀ v ∈ kvl, v.ID ∉ seen) ∧ (kvl.map KeyVersion.ID).Nodup ∧
      pc + (kvl.filter (fun v => decide (v.Status = Primary))).length = 1 := by
  intro kvl
  induction kvl with
  | nil =>
      intro pc seen h
      simp only [kvlValidateGo] at h
      refine ⟨by simp, by simp, ?_⟩
      by_cases hpc : pc ≠ 1
      · rw [if_pos hpc] at h; exact absurd h (by simp)
      · push_neg at hpc
        simp [hpc]
  | cons kv rest ih =>
      intro pc seen h
      simp only [kvlValidateGo] at h
      by_cases hseen : kv.ID ∈ seen
      · rw [if_pos hseen] at h; exact absurd h (by simp)
      · rw [if_neg hseen] at h
        obtain ⟨h1, h2, h3⟩ :=
          ih (if kv.Status = Primary then pc + 1 else pc) (kv.ID :: seen) h
        have hnotin : kv.ID ∉ rest.map KeyVersion.ID := by
          intro hm
          obtain ⟨v, hv, hvid⟩ := List.mem_map.mp hm
          exact (h1 v hv) (by rw [hvid]; exact List.mem_cons_self _ _)
        refine ⟨?_, ?_, ?_⟩
        · intro v hv
          rcases List.mem_cons.mp hv with h4 | h4
          · rw [h4]; exact hseen
          · intro hcon
            exact (h1 v h4) (List.mem_cons_of_mem _ hcon)
        · simp only [List.map_cons, List.nodup_cons]
          exact ⟨hnotin, h2⟩
        · by_cases hp : kv.Status = Primary
          · rw [if_pos hp] at h3
            simp only [List.filter_cons, hp]
            simp only [decide_eq_true_eq, if_true, List.length_cons]
            omega
          · rw [if_neg hp] at h3
            simp only [List.filter_cons]
            have : (decide (kv.Status = Primary)) = false := by simp [hp]
            rw [this]
            simpa using h3

lemma kvlValidate_facts (kvl : KeyVersionList) (h : kvlValidate kvl = none) :
    (kvl.map KeyVersion.ID).Nodup ∧
    (kvl.filter (fun v => decide (v.Status = Primary))).length = 1 := by
  obtain ⟨_, h2, h3⟩ := kvlValidateGo_none kvl 0 [] h
  exact ⟨h2, by omega⟩

lemma mem_pairs (kvl : KeyVersionList)
    (hstat : ∀ v ∈ kvl, v.Status = Primary ∨ v.Status = Active ∨
      v.Status = Inactive) (s : Int) (i : Nat) :
    ((s, i) ∈ (kvl.filter
        (fun v => decide (v.Status ≠ Inactive))).map statusId) ↔
      ((s = Primary ∧ i ∈ primaryIDs kvl) ∨
       (s = Active ∧ i ∈ activeIDs kvl)) := by
  constructor
  · intro hm
    obtain ⟨v, hvf, hfv⟩ := List.mem_map.mp hm
    obtain ⟨hv, hvni⟩ := List.mem_filter.mp hvf
    have hvni2 : v.Status ≠ Inactive := by simpa using hvni
    have hs : v.Status = s := congrArg Prod.fst hfv
    have hi : v.ID = i := congrArg Prod.snd hfv
    rcases hstat v hv with h0 | h0 | h0
    · refine Or.inl ⟨by rw [← hs, h0], ?_⟩
      exact List.mem_map.mpr ⟨v, List.mem_filter.mpr ⟨hv, by simp [h0]⟩, hi⟩
    · refine Or.inr ⟨by rw [← hs, h0], ?_⟩
      exact List.mem_map.mpr ⟨v, List.mem_filter.mpr ⟨hv, by simp [h0]⟩, hi⟩
    · exact absurd h0 hvni2
  · intro hm
    rcases hm with ⟨hs, hi⟩ | ⟨hs, hi⟩
    · obtain ⟨v, hvf, hvid⟩ := List.mem_map.mp hi
      obtain ⟨hv, hvp⟩ := List.mem_filter.mp hvf
      have hvp2 : v.Status = Primary := by simpa using hvp
      refine List.mem_map.mpr ⟨v, List.mem_filter.mpr ⟨hv, ?_⟩, ?_⟩
      · simp [hvp2, Primary, Inactive]
      · simp only [statusId, hvp2, hvid, hs]
    · obtain ⟨v, hvf, hvid⟩ := List.mem_map.mp hi
      obtain ⟨hv, hvp⟩ := List.mem_filter.mp hvf
      have hvp2 : v.Status = Active := by simpa using hvp
      refine List.mem_map.mpr ⟨v, List.mem_filter.mpr ⟨hv, ?_⟩, ?_⟩
      · simp [hvp2, Active, Inactive]
      · simp only [statusId, hvp2, hvid, hs]

lemma sorted_pairs (kvl : KeyVersionList) :
    List.Pairwise pairLE (((sortKVL kvl).filter
      (fun v => decide (v.Status ≠ Inactive))).map statusId) := by
  have hs : List.Pairwise kvlLE (sortKVL kvl) :=
    List.sorted_insertionSort kvlLE kvl
  have hf : List.Pairwise kvlLE ((sortKVL kvl).filter
      (fun v => decide (v.Status ≠ Inactive))) :=
    List.Pairwise.filter _ hs
  exact List.Pairwise.map statusId (fun a b hab => hab) hf

lemma nodup_pairs (kvl : KeyVersionList)
    (hnd : (kvl.map KeyVersion.ID).Nodup) :
    (((sortKVL kvl).filter
      (fun v => decide (v.Status ≠ Inactive))).map statusId).Nodup := by
  have hperm : List.Perm (sortKVL kvl) kvl := List.perm_insertionSort kvlLE kvl
  have hpermf := (hperm.filter (fun v => decide (v.Status ≠ Inactive))).map
    KeyVersion.ID
  have hsub : List.Sublist ((kvl.filter
      (fun v => decide (v.Status ≠ Inactive))).map KeyVersion.ID)
      (kvl.map KeyVersion.ID) :=
    (List.filter_sublist kvl).map KeyVersion.ID
  have hnd2 : (((sortKVL kvl).filter
      (fun v => decide (v.Status ≠ Inactive))).map KeyVersion.ID).Nodup :=
    (hnd.sublist hsub).perm hpermf.symm
  have heq : (((sortKVL kvl).filter
      (fun v => decide (v.Status ≠ Inactive))).map statusId).map Prod.snd =
      ((sortKVL kvl).filter
        (fun v => decide (v.Status ≠ Inactive))).map KeyVersion.ID := by
    rw [List.map_map]
    exact List.map_congr_left (fun v _ => rfl)
  exact List.Nodup.of_map Prod.snd (heq ▸ hnd2)

/-- Counterexample for C1: two valid lists with the same Primary id and
the same (empty) set of Active ids but a different number of Inactive
versions hash differently — `Hash` sizes its buffer by the total number
of versions, so every Inactive version contributes eight zero bytes. -/
theorem C1_counterexample :
    kvlValidate [⟨1, [], 0, 0⟩] = none ∧
    kvlValidate [⟨1, [], 0, 0⟩, ⟨2, [], 2, 0⟩] = none ∧
    primaryIDs [⟨1, [], 0, 0⟩] = primaryIDs [⟨1, [], 0, 0⟩, ⟨2, [], 2, 0⟩] ∧
    activeIDs [⟨1, [], 0, 0⟩] = activeIDs [⟨1, [], 0, 0⟩, ⟨2, [], 2, 0⟩] ∧
    kvlHash [⟨1, [], 0, 0⟩] ≠ kvlHash [⟨1, [], 0, 0⟩, ⟨2, [], 2, 0⟩] := by
  refine ⟨by decide, by decide, by decide, by decide, by decide⟩

/-- Claim C1 (amended): on valid version lists the hash depends only on
the Primary id, the set of Active ids, and the total number of
versions: two valid lists with equal `primaryIDs`, the same `activeIDs`
membership and the same length have equal hashes — the ids and data of
Inactive versions are ignored (each Inactive version contributes only
eight zero bytes of padding). -/
theorem C1_hash_determined (kvl1 kvl2 : KeyVersionList)
    (hv1 : kvlValidate kvl1 = none) (hv2 : kvlValidate kvl2 = none)
    (hs1 : ∀ v ∈ kvl1, v.Status = Primary ∨ v.Status = Active ∨
      v.Status = Inactive)
    (hs2 : ∀ v ∈ kvl2, v.Status = Primary ∨ v.Status = Active ∨
      v.Status = Inactive)
    (hlen : kvl1.length = kvl2.length)
    (hprim : primaryIDs kvl1 = primaryIDs kvl2)
    (hact : ∀ i, i ∈ activeIDs kvl1 ↔ i ∈ activeIDs kvl2) :
    kvlHash kvl1 = kvlHash kvl2 := by
  obtain ⟨hnd1, _⟩ := kvlValidate_facts kvl1 hv1
  obtain ⟨hnd2, _⟩ := kvlValidate_facts kvl2 hv2
  have hperm1 : List.Perm (sortKVL kvl1) kvl1 :=
    List.perm_insertionSort kvlLE kvl1
  have hperm2 : List.Perm (sortKVL kvl2) kvl2 :=
    List.perm_insertionSort kvlLE kvl2
  have hs1s : ∀ v ∈ sortKVL kvl1, v.Status = Primary ∨ v.Status = Active ∨
      v.Status = Inactive := fun v hv => hs1 v (hperm1.mem_iff.mp hv)
  have hs2s : ∀ v ∈ sortKVL kvl2, v.Status = Primary ∨ v.Status = Active ∨
      v.Status = Inactive := fun v hv => hs2 v (hperm2.mem_iff.mp hv)
  have hprim1 : List.Perm (primaryIDs (sortKVL kvl1)) (primaryIDs kvl1) :=
    (hperm1.filter _).map _
  have hprim2 : List.Perm (primaryIDs (sortKVL kvl2)) (primaryIDs kvl2) :=
    (hperm2.filter _).map _
  have hact1 : List.Perm (activeIDs (sortKVL kvl1)) (activeIDs kvl1) :=
    (hperm1.filter _).map _
  have hact2 : List.Perm (activeIDs (sortKVL kvl2)) (activeIDs kvl2) :=
    (hperm2.filter _).map _
  have hmemiff : ∀ a : Int × Nat,
      a ∈ ((sortKVL kvl1).filter
        (fun v => decide (v.Status ≠ Inactive))).map statusId ↔
      a ∈ ((sortKVL kvl2).filter
        (fun v => decide (v.Status ≠ Inactive))).map statusId := by
    rintro ⟨s, i⟩
    rw [mem_pairs (sortKVL kvl1) hs1s s i, mem_pairs (sortKVL kvl2) hs2s s i]
    constructor
    · rintro (⟨h, hm⟩ | ⟨h, hm⟩)
      · exact Or.inl ⟨h, hprim2.mem_iff.mpr (hprim ▸ hprim1.mem_iff.mp hm)⟩
      · exact Or.inr ⟨h,
          hact2.mem_iff.mpr ((hact i).mp (hact1.mem_iff.mp hm))⟩
    · rintro (⟨h, hm⟩ | ⟨h, hm⟩)
      · exact Or.inl ⟨h,
          hprim1.mem_iff.mpr (hprim ▸ hprim2.mem_iff.mp hm)⟩
      · exact Or.inr ⟨h,
          hact1.mem_iff.mpr ((hact i).mpr (hact2.mem_iff.mp hm))⟩
  have hpairs : ((sortKVL kvl1).filter
      (fun v => decide (v.Status ≠ Inactive))).map statusId =
      ((sortKVL kvl2).filter
        (fun v => decide (v.Status ≠ Inactive))).map statusId := by
    apply List.eq_of_perm_of_sorted
      ((List.perm_ext_iff_of_nodup (nodup_pairs kvl1 hnd1)
        (nodup_pairs kvl2 hnd2)).mpr hmemiff)
      (sorted_pairs kvl1) (sorted_pairs kvl2)
  have hids : ((sortKVL kvl1).filter
      (fun v => decide (v.Status ≠ Inactive))).map KeyVersion.ID =
      ((sortKVL kvl2).filter
        (fun v => decide (v.Status ≠ Inactive))).map KeyVersion.ID := by
    have h1 : ∀ kvl : KeyVersionList, ((sortKVL kvl).filter
        (fun v => decide (v.Status ≠ Inactive))).map KeyVersion.ID =
        (((sortKVL kvl).filter
          (fun v => decide (v.Status ≠ Inactive))).map statusId).map
            Prod.snd := by
      intro kvl
      rw [List.map_map]
      exact (List.map_congr_left (fun v _ => rfl)).symm
    rw [h1 kvl1, h1 kvl2, hpairs]
  have hbuf : hashBuffer kvl1 = hashBuffer kvl2 := by
    simp only [hashBuffer]
    rw [hids, hlen]
  simp only [kvlHash, hbuf]

/-- Witness for C1 (amended): the Inactive versions' ids and data and
the list order differ, yet the hashes agree. -/
theorem C1_hash_determined_witness :
    kvlValidate [⟨1, [], 0, 0⟩, ⟨2, [], 2, 0⟩] = none ∧
    kvlValidate [⟨9, [5], 2, 7⟩, ⟨1, [], 0, 0⟩] = none ∧
    kvlHash [⟨1, [], 0, 0⟩, ⟨2, [], 2, 0⟩] =
      kvlHash [⟨9, [5], 2, 7⟩, ⟨1, [], 0, 0⟩] := by
  refine ⟨by decide, by decide, ?_⟩
  exact C1_hash_determined [⟨1, [], 0, 0⟩, ⟨2, [], 2, 0⟩]
    [⟨9, [5], 2, 7⟩, ⟨1, [], 0, 0⟩] (by decide) (by decide) (by decide)
    (by decide) (by decide) (by decide) (fun i => Iff.rfl)

end Knox
